import Mathlib

/-! The `sequence` class of `Sequence.cpp`.

A shallow embedding of the member functions of `CS3358_SP2023::sequence`
and the properties of its design description.

Memory model.  The dynamic array `data` is a pointer into flat memory, so it
is embedded as a total map from indices to values; the number of slots that
`new value_type[capacity]` handed out is the member `capacity` (every
allocation in the file is made with the final value of that member).  A store
at an index that is not below `capacity` therefore still lands somewhere, as it
does on the machine, and is recorded in the ghost field `overrun`.  In the
source such a store is undefined behaviour: from the call that records an
index in `overrun` on, the state computed here says where the embedding goes,
not what the program does, and no property of the program is read off it.  The
contents of a freshly allocated array are indeterminate: every allocating
function takes them as the argument `fresh`.

Machine integers.  `size_type` is embedded as `Nat`.  `size_t(1.5 * capacity) + 1`
is `3 * capacity / 2 + 1`: the product is exact in double precision for every
capacity below `2 ^ 52`, far above what can be allocated.  `used - 1` in
`remove_current` is evaluated only after `assert(is_item())`, where on every
state with `current_index ≤ used` it cannot wrap.
-/

namespace CS3358_SP2023

/-- The data members of class `sequence`, with the ghost record `overrun` of
the array indices that were accessed outside the allocated slots. -/
structure sequence (α : Type) where
  data : Nat → α
  used : Nat
  current_index : Nat
  capacity : Nat
  overrun : List Nat

variable {α : Type}

/-- The index `i` when it lies outside an array of `slots` elements. -/
def off_end (slots i : Nat) : List Nat :=
  if i < slots then [] else [i]

/-- The statement `data[i] = data[j];` on the object's own array.  An index
that is not below `capacity` is recorded in `overrun`: there the source reads
or writes outside `new value_type[capacity]`. -/
def sequence.move (s : sequence α) (i j : Nat) : sequence α :=
  { s with
    data := fun k => if k = i then s.data j else s.data k
    overrun := s.overrun ++ off_end s.capacity j ++ off_end s.capacity i }

/-- The statement `data[i] = entry;` on the object's own array.  An index that
is not below `capacity` is recorded in `overrun`. -/
def sequence.store (s : sequence α) (i : Nat) (entry : α) : sequence α :=
  { s with
    data := fun k => if k = i then entry else s.data k
    overrun := s.overrun ++ off_end s.capacity i }

/-- The loop `for (i = 0; i < n; ++i) dst[i] = src[i];` between two arrays of
`srcSlots` and `dstSlots` elements.  The state is the destination array with
the ghost overrun record. -/
def copy_items (src : Nat → α) (srcSlots dstSlots : Nat) :
    Nat → (Nat → α) × List Nat → (Nat → α) × List Nat
  | 0, st => st
  | n + 1, st =>
    let st1 := copy_items src srcSlots dstSlots n st
    (fun k => if k = n then src n else st1.1 k,
      st1.2 ++ off_end srcSlots n ++ off_end dstSlots n)

/-- `sequence::sequence(size_type initial_capacity)`. -/
def sequence.construct (fresh : Nat → α) (initial_capacity : Nat) : sequence α :=
  { data := fresh
    used := 0
    current_index := 0
    capacity := if initial_capacity < 1 then 1 else initial_capacity
    overrun := [] }

/-- `sequence::sequence(const sequence& source)`. -/
def sequence.copy_construct (fresh : Nat → α) (source : sequence α) : sequence α :=
  let copied := copy_items source.data source.capacity source.capacity source.used (fresh, [])
  { data := copied.1
    used := source.used
    current_index := source.current_index
    capacity := source.capacity
    overrun := copied.2 }

/-- `void sequence::resize(size_type new_capacity)`. -/
def sequence.resize (s : sequence α) (fresh : Nat → α) (new_capacity : Nat) : sequence α :=
  let new_capacity := if new_capacity < 1 then 1 else new_capacity
  let capacity := if new_capacity < s.used then s.capacity else new_capacity
  let newData := copy_items s.data s.capacity capacity s.used (fresh, s.overrun)
  { data := newData.1
    used := s.used
    current_index := s.current_index
    capacity := capacity
    overrun := newData.2 }

/-- `void sequence::start()`. -/
def sequence.start (s : sequence α) : sequence α :=
  { s with current_index := 0 }

/-- `size_type sequence::size() const`. -/
def sequence.size (s : sequence α) : Nat :=
  s.used

/-- `bool sequence::is_item() const`. -/
def sequence.is_item (s : sequence α) : Bool :=
  s.current_index != s.used

/-- `value_type sequence::current() const`; `none` is the failed assertion. -/
def sequence.current (s : sequence α) : Option α :=
  if s.is_item then some (s.data s.current_index) else none

/-- `void sequence::advance()`; `none` is the failed assertion. -/
def sequence.advance (s : sequence α) : Option (sequence α) :=
  if s.is_item then some { s with current_index := s.current_index + 1 } else none

/-- The loop `for (size_t i = ...; i > current_index; --i) data[i] = data[i-1];`
of `insert` and `attach`, entered with the loop variable at the first argument. -/
def shift_right : Nat → sequence α → sequence α
  | 0, s => s
  | i + 1, s => if i + 1 > s.current_index then shift_right i (s.move (i + 1) i) else s

/-- `void sequence::insert(const value_type& entry)`. -/
def sequence.insert (s : sequence α) (fresh : Nat → α) (entry : α) : sequence α :=
  let s := if s.used = s.capacity then s.resize fresh (3 * s.capacity / 2 + 1) else s
  if !s.is_item then
    let s := { s with current_index := 0 }
    let s := shift_right (s.used + 1) s
    let s := s.store s.current_index entry
    { s with used := s.used + 1 }
  else
    let s := shift_right (s.used + 1) s
    let s := s.store s.current_index entry
    { s with used := s.used + 1 }

/-- `void sequence::attach(const value_type& entry)`. -/
def sequence.attach (s : sequence α) (fresh : Nat → α) (entry : α) : sequence α :=
  let s := if s.used = s.capacity then s.resize fresh (3 * s.capacity / 2 + 1) else s
  if !s.is_item then
    let s := s.store s.current_index entry
    { s with used := s.used + 1 }
  else
    let s := { s with current_index := s.current_index + 1 }
    let s := shift_right (s.used + 1) s
    let s := s.store s.current_index entry
    { s with used := s.used + 1 }

/-- The first `n` rounds of the loop
`for (size_t i = current_index; i < used-1; ++i) data[i] = data[i+1];`,
that is the rounds `i = current_index, ..., current_index + n - 1` in that order. -/
def shift_left : Nat → sequence α → sequence α
  | 0, s => s
  | n + 1, s =>
    let s := shift_left n s
    s.move (s.current_index + n) (s.current_index + n + 1)

/-- `void sequence::remove_current()`; `none` is the failed assertion.  The
loop runs `used - 1 - current_index` rounds. -/
def sequence.remove_current (s : sequence α) : Option (sequence α) :=
  if s.is_item then
    let s := shift_left (s.used - 1 - s.current_index) s
    some { s with used := s.used - 1 }
  else none

/-- The argument of `operator=`: a reference to the object itself or to
another object. -/
inductive source_ref (α : Type) where
  | itself : source_ref α
  | other (source : sequence α) : source_ref α

/-- `sequence& sequence::operator=(const sequence& source)`. -/
def sequence.assign (s : sequence α) (fresh : Nat → α) (r : source_ref α) : sequence α :=
  match r with
  | .itself => s
  | .other source =>
    let newData := copy_items source.data source.capacity source.capacity source.used
      (fresh, s.overrun)
    { data := newData.1
      capacity := source.capacity
      used := source.used
      current_index := source.current_index
      overrun := newData.2 }

/-- The items of the sequence: `data[0]` through `data[used-1]`. -/
def sequence.items (s : sequence α) : List α :=
  (List.range s.used).map s.data

/-- The representation invariant on the three counters. -/
def sequence.Inv (s : sequence α) : Prop :=
  s.current_index ≤ s.used ∧ s.used ≤ s.capacity ∧ 1 ≤ s.capacity

instance (s : sequence α) : Decidable s.Inv := by
  unfold sequence.Inv; infer_instance

/-- The states a client can produce: construction, copy construction, copy
assignment and the modification member functions, with `advance` and
`remove_current` called only where their assertion holds. -/
inductive Reachable : sequence α → Prop where
  | construct (fresh : Nat → α) (n : Nat) : Reachable (sequence.construct fresh n)
  | copy_construct (fresh : Nat → α) {src : sequence α} :
      Reachable src → Reachable (sequence.copy_construct fresh src)
  | assign (fresh : Nat → α) {s src : sequence α} :
      Reachable s → Reachable src → Reachable (s.assign fresh (.other src))
  | assign_itself (fresh : Nat → α) {s : sequence α} :
      Reachable s → Reachable (s.assign fresh .itself)
  | resize (fresh : Nat → α) (n : Nat) {s : sequence α} :
      Reachable s → Reachable (s.resize fresh n)
  | start {s : sequence α} : Reachable s → Reachable s.start
  | advance {s t : sequence α} : Reachable s → s.advance = some t → Reachable t
  | insert (fresh : Nat → α) (entry : α) {s : sequence α} :
      Reachable s → Reachable (s.insert fresh entry)
  | attach (fresh : Nat → α) (entry : α) {s : sequence α} :
      Reachable s → Reachable (s.attach fresh entry)
  | remove_current {s t : sequence α} :
      Reachable s → s.remove_current = some t → Reachable t

/-- The state after the first statement of `insert` and of `attach`:
`if (used == capacity) resize(size_t(1.5 * capacity) + 1);`. -/
def grown (s : sequence α) (fresh : Nat → α) : sequence α :=
  if s.used = s.capacity then s.resize fresh (3 * s.capacity / 2 + 1) else s

/-- The index at which `insert` puts the entry. -/
def insert_point (s : sequence α) : Nat :=
  if s.is_item then s.current_index else 0

/-- The index at which `attach` puts the entry. -/
def attach_point (s : sequence α) : Nat :=
  if s.is_item then s.current_index + 1 else s.current_index

/-! ## Concrete states used in the examples -/

/-- Uninitialised memory that happens to hold junk. -/
def junk : Nat → Int := fun _ => 0

/-- The sequence `[5]` with the cursor on `5`, in an array of ten slots. -/
def seq5 : sequence Int :=
  (sequence.construct junk 10).insert junk 5

/-- The sequence `[5, 7]` with the cursor on `5`. -/
def seq57 : sequence Int :=
  (seq5.attach junk 7).start

/-- The sequence `[5]` with no current item: `seq5` after `advance()`. -/
def seq5_end : sequence Int :=
  (seq5.advance).getD seq5

/-- An empty sequence built with capacity hint 10. -/
def empty10 : sequence Int :=
  sequence.construct junk 10

/-- An empty sequence built with capacity hint 1. -/
def empty1 : sequence Int :=
  sequence.construct junk 1

/-! ## Client programs -/

/-- One insertion call of a client program: `insert(entry)` or `attach(entry)`. -/
inductive insertion (α : Type) where
  | insert (entry : α) : insertion α
  | attach (entry : α) : insertion α

/-- The call made on a sequence. -/
def insertion.call (fresh : Nat → α) (s : sequence α) : insertion α → sequence α
  | .insert entry => s.insert fresh entry
  | .attach entry => s.attach fresh entry

/-- The calls of a list made in turn. -/
def sequence.build (s : sequence α) (fresh : Nat → α) (calls : List (insertion α)) :
    sequence α :=
  calls.foldl (insertion.call fresh) s

/-- The calls `attach(v1); ...; attach(vN);`. -/
def sequence.attach_all (s : sequence α) (fresh : Nat → α) (vs : List α) : sequence α :=
  vs.foldl (fun t v => t.attach fresh v) s

/-- The calls `insert(v1); ...; insert(vN);`. -/
def sequence.insert_all (s : sequence α) (fresh : Nat → α) (vs : List α) : sequence α :=
  vs.foldl (fun t v => t.insert fresh v) s

/-- A call of one of the modification member functions. -/
inductive operation (α : Type) where
  | insert (entry : α) : operation α
  | attach (entry : α) : operation α
  | remove_current : operation α
  | resize (new_capacity : Nat) : operation α
  | start : operation α
  | advance : operation α

/-- Two states with the same counters and the same items, whatever the slots
from `used` on hold. -/
def agree (s t : sequence α) : Prop :=
  s.used = t.used ∧ s.current_index = t.current_index ∧ s.capacity = t.capacity ∧
    s.items = t.items

instance [DecidableEq α] (s t : sequence α) : Decidable (agree s t) := by
  unfold agree; infer_instance

/-- Other contents of uninitialised memory: slot `k` holds `100 + k`. -/
def junk2 : Nat → Int := fun k => 100 + k

/-- The sequence `[5]` with the cursor on `5` in an array of two slots:
`sequence s(2); s.attach(5);`. -/
def half2 : sequence Int :=
  (sequence.construct junk 2).attach junk 5

/-- The sequence `[5]` with the cursor on `5` in an array of one slot:
`sequence s(1); s.attach(5);`. -/
def full1 : sequence Int :=
  empty1.attach junk 5

/-- The sequence `[1, 2]` with the cursor on `2` in an array of three slots:
`sequence s(3); s.attach(1); s.attach(2);`. -/
def two_of_three : sequence Int :=
  ((sequence.construct junk 3).attach junk 1).attach junk 2

/-- The empty sequence `sequence s(1);` whose new array happens to hold 111. -/
def empty_on_111 : sequence Int :=
  sequence.construct (fun _ => 111) 1

/-- The empty sequence `sequence s(1);` whose new array happens to hold 222. -/
def empty_on_222 : sequence Int :=
  sequence.construct (fun _ => 222) 1

/-- The sequence `[5, 7]` with no current item: `seq57` after two calls of
`advance()`. -/
def seq57_end : sequence Int :=
  (seq57.advance.bind sequence.advance).getD seq57

/-! ## Objects in the free store

The same member functions with the pointer `data` kept as an address, for the
properties that are about two objects and their arrays.  Every `new[]` hands
out an address that was never handed out before; `delete []` is left out, so
a deleted array is simply never used again. -/

/-- The free store: the contents of the arrays obtained from `new[]`, by
address; the addresses from `next` on have not been handed out. -/
structure free_store (α : Type) where
  cells : Nat → Nat → α
  next : Nat

/-- The data members of a `sequence` object; `data` is the address of its
array in the free store. -/
structure object where
  data : Nat
  used : Nat
  current_index : Nat
  capacity : Nat

/-- The free store after `new value_type[...]`, which hands out the address
`next`; the new array holds `fresh`. -/
def free_store.allocate (m : free_store α) (fresh : Nat → α) : free_store α :=
  { cells := fun a => if a = m.next then fresh else m.cells a
    next := m.next + 1 }

/-- The statement `p[i] = x;` for the array at address `p`. -/
def free_store.write (m : free_store α) (p i : Nat) (x : α) : free_store α :=
  { m with cells := fun a => if a = p then fun k => if k = i then x else m.cells a k
                             else m.cells a }

/-- The loop `for (i = 0; i < n; ++i) dst[i] = src[i];` between the arrays at
the addresses `dst` and `src`. -/
def free_store.copy_items (dst src : Nat) : Nat → free_store α → free_store α
  | 0, m => m
  | n + 1, m =>
    let m1 := free_store.copy_items dst src n m
    m1.write dst n (m1.cells src n)

/-- The loop `for (size_t i = ...; i > current_index; --i) data[i] = data[i-1];`
on the array at address `p`. -/
def free_store.shift_right (p current_index : Nat) : Nat → free_store α → free_store α
  | 0, m => m
  | i + 1, m =>
    if i + 1 > current_index then
      free_store.shift_right p current_index i (m.write p (i + 1) (m.cells p i))
    else m

/-- The first `n` rounds of the loop
`for (size_t i = current_index; i < used-1; ++i) data[i] = data[i+1];` on the
array at address `p`. -/
def free_store.shift_left (p current_index : Nat) : Nat → free_store α → free_store α
  | 0, m => m
  | n + 1, m =>
    let m1 := free_store.shift_left p current_index n m
    m1.write p (current_index + n) (m1.cells p (current_index + n + 1))

/-- `sequence::sequence(size_type initial_capacity)` in the free store. -/
def object.construct (m : free_store α) (fresh : Nat → α) (initial_capacity : Nat) :
    free_store α × object :=
  (m.allocate fresh,
    { data := m.next
      used := 0
      current_index := 0
      capacity := if initial_capacity < 1 then 1 else initial_capacity })

/-- `sequence::sequence(const sequence& source)` in the free store. -/
def object.copy_construct (m : free_store α) (fresh : Nat → α) (source : object) :
    free_store α × object :=
  (free_store.copy_items m.next source.data source.used (m.allocate fresh),
    { data := m.next
      used := source.used
      current_index := source.current_index
      capacity := source.capacity })

/-- `void sequence::resize(size_type new_capacity)` in the free store. -/
def object.resize (o : object) (m : free_store α) (fresh : Nat → α) (new_capacity : Nat) :
    free_store α × object :=
  let new_capacity := if new_capacity < 1 then 1 else new_capacity
  let capacity := if new_capacity < o.used then o.capacity else new_capacity
  (free_store.copy_items m.next o.data o.used (m.allocate fresh),
    { o with data := m.next, capacity := capacity })

/-- `void sequence::start()` on an object. -/
def object.start (o : object) : object :=
  { o with current_index := 0 }

/-- `bool sequence::is_item() const` on an object. -/
def object.is_item (o : object) : Bool :=
  o.current_index != o.used

/-- `void sequence::advance()` on an object; `none` is the failed assertion. -/
def object.advance (o : object) : Option object :=
  if o.is_item then some { o with current_index := o.current_index + 1 } else none

/-- `void sequence::insert(const value_type& entry)` in the free store. -/
def object.insert (o : object) (m : free_store α) (fresh : Nat → α) (entry : α) :
    free_store α × object :=
  let r := if o.used = o.capacity then o.resize m fresh (3 * o.capacity / 2 + 1) else (m, o)
  if !r.2.is_item then
    let o := { r.2 with current_index := 0 }
    let m := free_store.shift_right o.data o.current_index (o.used + 1) r.1
    let m := m.write o.data o.current_index entry
    (m, { o with used := o.used + 1 })
  else
    let o := r.2
    let m := free_store.shift_right o.data o.current_index (o.used + 1) r.1
    let m := m.write o.data o.current_index entry
    (m, { o with used := o.used + 1 })

/-- `void sequence::attach(const value_type& entry)` in the free store. -/
def object.attach (o : object) (m : free_store α) (fresh : Nat → α) (entry : α) :
    free_store α × object :=
  let r := if o.used = o.capacity then o.resize m fresh (3 * o.capacity / 2 + 1) else (m, o)
  if !r.2.is_item then
    let o := r.2
    let m := r.1.write o.data o.current_index entry
    (m, { o with used := o.used + 1 })
  else
    let o := { r.2 with current_index := r.2.current_index + 1 }
    let m := free_store.shift_right o.data o.current_index (o.used + 1) r.1
    let m := m.write o.data o.current_index entry
    (m, { o with used := o.used + 1 })

/-- `void sequence::remove_current()` in the free store; `none` is the failed
assertion. -/
def object.remove_current (o : object) (m : free_store α) : Option (free_store α × object) :=
  if o.is_item then
    some (free_store.shift_left o.data o.current_index (o.used - 1 - o.current_index) m,
      { o with used := o.used - 1 })
  else none

/-- `sequence& sequence::operator=(const sequence& source)` in the free store;
the source `none` is the object itself. -/
def object.assign (o : object) (m : free_store α) (fresh : Nat → α) (source : Option object) :
    free_store α × object :=
  match source with
  | none => (m, o)
  | some source =>
    (free_store.copy_items m.next source.data source.used (m.allocate fresh),
      { data := m.next
        capacity := source.capacity
        used := source.used
        current_index := source.current_index })

/-- The call of a modification member function on an object in the free
store; `none` is a failed assertion. -/
def operation.apply_to (fresh : Nat → α) (m : free_store α) (o : object) :
    operation α → Option (free_store α × object)
  | .insert entry => some (o.insert m fresh entry)
  | .attach entry => some (o.attach m fresh entry)
  | .remove_current => o.remove_current m
  | .resize new_capacity => some (o.resize m fresh new_capacity)
  | .start => some (m, o.start)
  | .advance => (o.advance).map (fun t => (m, t))

/-- A change made to an object in the free store: a call of a modification
member function, or an assignment `object = source`. -/
inductive mutation (α : Type) where
  | call (op : operation α) : mutation α
  | assign (source : Option object) : mutation α

/-- The change made to an object; `none` is a failed assertion. -/
def mutation.apply (fresh : Nat → α) (w : free_store α × object) :
    mutation α → Option (free_store α × object)
  | .call op => op.apply_to fresh w.1 w.2
  | .assign source => some (w.2.assign w.1 fresh source)

/-- The changes of a list made in turn, as long as no assertion fails. -/
def mutate (fresh : Nat → α) : List (mutation α) → free_store α × object →
    Option (free_store α × object)
  | [], w => some w
  | c :: cs, w => (c.apply fresh w).bind (mutate fresh cs)

/-- The state of an object as the member functions see it: its counters with
the contents of the array that `data` points to. -/
def object.view (o : object) (m : free_store α) : sequence α :=
  { data := m.cells o.data
    used := o.used
    current_index := o.current_index
    capacity := o.capacity
    overrun := [] }

/-- Two states with the same array contents and the same counters; only the
ghost record may differ. -/
def same_state (s t : sequence α) : Prop :=
  s.data = t.data ∧ s.used = t.used ∧ s.current_index = t.current_index ∧
    s.capacity = t.capacity

/-- The free store and the object after the first statement of `insert` and
of `attach`: `if (used == capacity) resize(size_t(1.5 * capacity) + 1);`. -/
def object.grown (o : object) (m : free_store α) (fresh : Nat → α) : free_store α × object :=
  if o.used = o.capacity then o.resize m fresh (3 * o.capacity / 2 + 1) else (m, o)

/-- A free store in which nothing has been allocated. -/
def store0 : free_store Int :=
  { cells := fun _ _ => 0, next := 0 }

/-- The free store and the object after
`sequence s(10); s.insert(5); s.attach(7); s.start();`. -/
def world57 : free_store Int × object :=
  let w := object.construct store0 junk 10
  let w := w.2.insert w.1 junk 5
  let w := w.2.attach w.1 junk 7
  (w.1, w.2.start)

/-- The store, the original and its copy after `sequence t(s);` in `world57`. -/
def copied57 : free_store Int × object :=
  object.copy_construct world57.1 junk2 world57.2

/-! ## The loops -/

theorem copy_items_fst (src : Nat → α) (a b : Nat) (n : Nat) (st : (Nat → α) × List Nat)
    (k : Nat) : (copy_items src a b n st).1 k = if k < n then src k else st.1 k := by
  induction n with
  | zero => simp [copy_items]
  | succ n ih =>
    simp only [copy_items]
    by_cases hk : k = n
    · subst hk; simp
    · have h1 : k < n + 1 ↔ k < n := by omega
      simp [hk, ih, h1]

theorem shift_right_used (i : Nat) (s : sequence α) : (shift_right i s).used = s.used := by
  induction i generalizing s with
  | zero => rfl
  | succ i ih =>
    simp only [shift_right]
    split
    · rw [ih]; rfl
    · rfl

theorem shift_right_capacity (i : Nat) (s : sequence α) :
    (shift_right i s).capacity = s.capacity := by
  induction i generalizing s with
  | zero => rfl
  | succ i ih =>
    simp only [shift_right]
    split
    · rw [ih]; rfl
    · rfl

theorem shift_right_current_index (i : Nat) (s : sequence α) :
    (shift_right i s).current_index = s.current_index := by
  induction i generalizing s with
  | zero => rfl
  | succ i ih =>
    simp only [shift_right]
    split
    · rw [ih]; rfl
    · rfl

/-- The shift loop entered at `i` moves every slot in `(current_index, i]` up
from the slot below it and touches nothing else. -/
theorem shift_right_data (i : Nat) (s : sequence α) (k : Nat) :
    (shift_right i s).data k =
      if s.current_index < k ∧ k ≤ i then s.data (k - 1) else s.data k := by
  induction i generalizing s with
  | zero =>
    have h : ¬ (s.current_index < k ∧ k ≤ 0) := by omega
    simp only [shift_right]
    rw [if_neg h]
  | succ i ih =>
    simp only [shift_right]
    split
    · rename_i hgt
      rw [ih]
      simp only [sequence.move]
      by_cases h1 : s.current_index < k ∧ k ≤ i
      · have h2 : s.current_index < k ∧ k ≤ i + 1 := by omega
        have h3 : k - 1 ≠ i + 1 := by omega
        simp [h1, h2, h3]
      · by_cases h4 : k = i + 1
        · subst h4
          have h5 : s.current_index < i + 1 ∧ i + 1 ≤ i + 1 := by omega
          simp [h1, h5]
        · have h6 : ¬ (s.current_index < k ∧ k ≤ i + 1) := by omega
          simp [h1, h4, h6]
    · rename_i hle
      have h : ¬ (s.current_index < k ∧ k ≤ i + 1) := by omega
      simp [h]

theorem shift_left_used (n : Nat) (s : sequence α) : (shift_left n s).used = s.used := by
  induction n with
  | zero => rfl
  | succ n ih => simpa [shift_left, sequence.move] using ih

theorem shift_left_capacity (n : Nat) (s : sequence α) :
    (shift_left n s).capacity = s.capacity := by
  induction n with
  | zero => rfl
  | succ n ih => simpa [shift_left, sequence.move] using ih

theorem shift_left_current_index (n : Nat) (s : sequence α) :
    (shift_left n s).current_index = s.current_index := by
  induction n with
  | zero => rfl
  | succ n ih => simpa [shift_left, sequence.move] using ih

/-- After `n` rounds the removal loop has pulled every slot in
`[current_index, current_index + n)` down from the slot above it. -/
theorem shift_left_data (n : Nat) (s : sequence α) (k : Nat) :
    (shift_left n s).data k =
      if s.current_index ≤ k ∧ k < s.current_index + n then s.data (k + 1) else s.data k := by
  induction n generalizing k with
  | zero =>
    have h : ¬ (s.current_index ≤ k ∧ k < s.current_index + 0) := by omega
    simp only [shift_left]
    rw [if_neg h]
  | succ n ih =>
    simp only [shift_left, sequence.move, shift_left_current_index]
    by_cases hk : k = s.current_index + n
    · subst hk
      have h1 : s.current_index ≤ s.current_index + n ∧
          s.current_index + n < s.current_index + (n + 1) := by omega
      have h2 : ¬ (s.current_index ≤ s.current_index + n + 1 ∧
          s.current_index + n + 1 < s.current_index + n) := by omega
      rw [if_pos rfl, ih, if_neg h2, if_pos h1]
    · rw [if_neg hk, ih]
      by_cases h3 : s.current_index ≤ k ∧ k < s.current_index + n
      · have h4 : s.current_index ≤ k ∧ k < s.current_index + (n + 1) := by omega
        simp [h3, h4]
      · have h5 : ¬ (s.current_index ≤ k ∧ k < s.current_index + (n + 1)) := by omega
        simp [h3, h5]

/-! ## Lists read off an array -/

theorem items_length (s : sequence α) : s.items.length = s.used := by
  simp [sequence.items]

theorem items_getElem (s : sequence α) (k : Nat) (h : k < s.items.length) :
    s.items[k] = s.data k := by
  simp [sequence.items]

/-- Two states with the same count and the same occupied slots have the same items. -/
theorem items_congr (s t : sequence α) (hu : t.used = s.used)
    (hd : ∀ k, k < s.used → t.data k = s.data k) : t.items = s.items := by
  apply List.ext_getElem
  · simp [items_length, hu]
  · intro k h1 h2
    rw [items_getElem, items_getElem]
    exact hd k (by simpa [items_length] using h2)

/-- Reading `n + 1` slots of an array that holds `v` at `p`, the old slots
below `p` and the old slots shifted up by one above `p`. -/
theorem map_range_insert (d e : Nat → α) (n p : Nat) (v : α) (hp : p ≤ n)
    (h : ∀ k, k ≤ n → e k = if k = p then v else if p < k then d (k - 1) else d k) :
    (List.range (n + 1)).map e =
      ((List.range n).map d).take p ++ [v] ++ ((List.range n).map d).drop p := by
  apply List.ext_getElem
  · simp; omega
  · intro k h1 h2
    have hk : k ≤ n := by simp at h1; omega
    simp only [List.getElem_map, List.getElem_range, h k hk]
    by_cases hkp : k < p
    · have : k ≠ p := by omega
      have : ¬ p < k := by omega
      rw [List.getElem_append_left (by simp; omega)]
      rw [List.getElem_append_left (by simp; omega)]
      simp [*]
    · by_cases hkp2 : k = p
      · subst hkp2
        rw [List.getElem_append_left (by simp; omega)]
        rw [List.getElem_append_right (by simp [Nat.min_eq_left hp])]
        simp [Nat.min_eq_left hp]
      · have : p < k := by omega
        rw [List.getElem_append_right (by simp; omega)]
        simp [*]
        congr 1
        omega

/-- Reading `n - 1` slots of an array in which the slots from `c` on were
pulled down by one. -/
theorem map_range_erase (d e : Nat → α) (n c : Nat) (hc : c < n)
    (h : ∀ k, k < n - 1 → e k = if c ≤ k then d (k + 1) else d k) :
    (List.range (n - 1)).map e = ((List.range n).map d).eraseIdx c := by
  apply List.ext_getElem
  · rw [List.length_eraseIdx]; simp [hc]
  · intro k h1 h2
    have hk : k < n - 1 := by simpa using h1
    simp only [List.getElem_map, List.getElem_range, h k hk]
    by_cases hck : c ≤ k
    · rw [List.getElem_eraseIdx_of_ge _ _ _ _ hck]
      simp [hck]
    · rw [List.getElem_eraseIdx_of_lt _ _ _ _ (by omega)]
      simp [hck]

/-! ## The member functions, field by field -/

theorem resize_used (s : sequence α) (fresh : Nat → α) (n : Nat) :
    (s.resize fresh n).used = s.used := rfl

theorem resize_current_index (s : sequence α) (fresh : Nat → α) (n : Nat) :
    (s.resize fresh n).current_index = s.current_index := rfl

theorem resize_capacity (s : sequence α) (fresh : Nat → α) (n : Nat) :
    (s.resize fresh n).capacity =
      if (if n < 1 then 1 else n) < s.used then s.capacity else (if n < 1 then 1 else n) := rfl

theorem resize_data (s : sequence α) (fresh : Nat → α) (n k : Nat) (hk : k < s.used) :
    (s.resize fresh n).data k = s.data k := by
  simp [sequence.resize, copy_items_fst, hk]

theorem grown_used (s : sequence α) (fresh : Nat → α) : (grown s fresh).used = s.used := by
  unfold grown; split <;> rfl

theorem grown_current_index (s : sequence α) (fresh : Nat → α) :
    (grown s fresh).current_index = s.current_index := by
  unfold grown; split <;> rfl

theorem grown_is_item (s : sequence α) (fresh : Nat → α) :
    (grown s fresh).is_item = s.is_item := by
  simp [sequence.is_item, grown_used, grown_current_index]

theorem grown_data (s : sequence α) (fresh : Nat → α) (k : Nat) (hk : k < s.used) :
    (grown s fresh).data k = s.data k := by
  unfold grown; split
  · exact resize_data s fresh _ k hk
  · rfl

theorem grown_capacity (s : sequence α) (fresh : Nat → α) :
    (grown s fresh).capacity =
      if s.used = s.capacity then s.capacity + s.capacity / 2 + 1 else s.capacity := by
  unfold grown; split
  · rename_i h
    rw [resize_capacity]
    have h1 : ¬ (3 * s.capacity / 2 + 1 < 1) := by omega
    have h2 : ¬ (3 * s.capacity / 2 + 1 < s.used) := by omega
    rw [if_neg h1, if_neg h2]
    omega
  · rfl

theorem grown_room (s : sequence α) (fresh : Nat → α) (h : s.used ≤ s.capacity) :
    (grown s fresh).used < (grown s fresh).capacity := by
  rw [grown_used, grown_capacity]
  split <;> omega

theorem grown_items (s : sequence α) (fresh : Nat → α) : (grown s fresh).items = s.items :=
  items_congr s (grown s fresh) (grown_used s fresh) (fun k hk => grown_data s fresh k hk)

theorem insert_def (s : sequence α) (fresh : Nat → α) (entry : α) :
    s.insert fresh entry =
      if !(grown s fresh).is_item then
        { (shift_right ((grown s fresh).used + 1)
            { grown s fresh with current_index := 0 }).store
            (shift_right ((grown s fresh).used + 1)
              { grown s fresh with current_index := 0 }).current_index entry with
          used := (shift_right ((grown s fresh).used + 1)
            { grown s fresh with current_index := 0 }).used + 1 }
      else
        { (shift_right ((grown s fresh).used + 1) (grown s fresh)).store
            (shift_right ((grown s fresh).used + 1) (grown s fresh)).current_index entry with
          used := (shift_right ((grown s fresh).used + 1) (grown s fresh)).used + 1 } := rfl

theorem attach_def (s : sequence α) (fresh : Nat → α) (entry : α) :
    s.attach fresh entry =
      if !(grown s fresh).is_item then
        { (grown s fresh).store (grown s fresh).current_index entry with
          used := (grown s fresh).used + 1 }
      else
        { (shift_right ((grown s fresh).used + 1)
            { grown s fresh with current_index := (grown s fresh).current_index + 1 }).store
            (shift_right ((grown s fresh).used + 1)
              { grown s fresh with
                current_index := (grown s fresh).current_index + 1 }).current_index entry with
          used := (shift_right ((grown s fresh).used + 1)
            { grown s fresh with
              current_index := (grown s fresh).current_index + 1 }).used + 1 } := rfl

theorem insert_used (s : sequence α) (fresh : Nat → α) (entry : α) :
    (s.insert fresh entry).used = s.used + 1 := by
  rw [insert_def]
  split <;> simp [sequence.store, shift_right_used, grown_used]

theorem insert_current_index (s : sequence α) (fresh : Nat → α) (entry : α) :
    (s.insert fresh entry).current_index = insert_point s := by
  rw [insert_def, grown_is_item, insert_point]
  cases h : s.is_item <;>
    simp [sequence.store, shift_right_current_index, grown_current_index]

theorem insert_capacity (s : sequence α) (fresh : Nat → α) (entry : α) :
    (s.insert fresh entry).capacity = (grown s fresh).capacity := by
  rw [insert_def]
  split <;> simp [sequence.store, shift_right_capacity]

theorem insert_data (s : sequence α) (fresh : Nat → α) (entry : α) (k : Nat) :
    (s.insert fresh entry).data k =
      if k = insert_point s then entry
      else if insert_point s < k ∧ k ≤ s.used + 1 then (grown s fresh).data (k - 1)
      else (grown s fresh).data k := by
  rw [insert_def, grown_is_item, insert_point]
  cases h : s.is_item <;>
    simp [sequence.store, shift_right_current_index, shift_right_data, grown_current_index,
      grown_used]

theorem attach_used (s : sequence α) (fresh : Nat → α) (entry : α) :
    (s.attach fresh entry).used = s.used + 1 := by
  rw [attach_def]
  split <;> simp [sequence.store, shift_right_used, grown_used]

theorem attach_current_index (s : sequence α) (fresh : Nat → α) (entry : α) :
    (s.attach fresh entry).current_index = attach_point s := by
  rw [attach_def, grown_is_item, attach_point]
  cases h : s.is_item <;>
    simp [sequence.store, shift_right_current_index, grown_current_index]

theorem attach_capacity (s : sequence α) (fresh : Nat → α) (entry : α) :
    (s.attach fresh entry).capacity = (grown s fresh).capacity := by
  rw [attach_def]
  split <;> simp [sequence.store, shift_right_capacity]

theorem attach_data (s : sequence α) (fresh : Nat → α) (entry : α) (k : Nat) :
    (s.attach fresh entry).data k =
      if k = attach_point s then entry
      else if s.is_item = true ∧ attach_point s < k ∧ k ≤ s.used + 1 then
        (grown s fresh).data (k - 1)
      else (grown s fresh).data k := by
  rw [attach_def, grown_is_item, attach_point]
  cases h : s.is_item <;>
    simp [sequence.store, shift_right_current_index, shift_right_data, grown_current_index,
      grown_used]

theorem is_item_iff (s : sequence α) : s.is_item = true ↔ s.current_index ≠ s.used := by
  simp [sequence.is_item]

theorem is_item_false_iff (s : sequence α) : s.is_item = false ↔ s.current_index = s.used := by
  simp [sequence.is_item]

theorem remove_current_some (s : sequence α) (h : s.current_index ≠ s.used) :
    s.remove_current =
      some { shift_left (s.used - 1 - s.current_index) s with
        used := (shift_left (s.used - 1 - s.current_index) s).used - 1 } := by
  have hi : s.is_item = true := (is_item_iff s).2 h
  simp [sequence.remove_current, hi]

theorem remove_current_none (s : sequence α) (h : s.current_index = s.used) :
    s.remove_current = none := by
  have hi : s.is_item = false := (is_item_false_iff s).2 h
  simp [sequence.remove_current, hi]

theorem advance_some (s : sequence α) (h : s.current_index ≠ s.used) :
    s.advance = some { s with current_index := s.current_index + 1 } := by
  have hi : s.is_item = true := (is_item_iff s).2 h
  simp [sequence.advance, hi]

theorem advance_none (s : sequence α) (h : s.current_index = s.used) : s.advance = none := by
  have hi : s.is_item = false := (is_item_false_iff s).2 h
  simp [sequence.advance, hi]

/-! ## Each member function keeps the invariant -/

theorem construct_inv (fresh : Nat → α) (n : Nat) : (sequence.construct fresh n).Inv := by
  simp only [sequence.Inv, sequence.construct]
  split <;> omega

theorem copy_construct_inv (fresh : Nat → α) (src : sequence α) (h : src.Inv) :
    (sequence.copy_construct fresh src).Inv := h

theorem assign_inv (fresh : Nat → α) (s : sequence α) (r : source_ref α) (hs : s.Inv)
    (hr : ∀ src, r = .other src → src.Inv) : (s.assign fresh r).Inv := by
  cases r with
  | itself => exact hs
  | other src => exact hr src rfl

theorem resize_inv (fresh : Nat → α) (n : Nat) (s : sequence α) (h : s.Inv) :
    (s.resize fresh n).Inv := by
  obtain ⟨h1, h2, h3⟩ := h
  simp only [sequence.Inv, resize_used, resize_current_index, resize_capacity]
  refine ⟨h1, ?_, ?_⟩ <;> split <;> split <;> omega

theorem start_inv (s : sequence α) (h : s.Inv) : s.start.Inv := by
  obtain ⟨_, h2, h3⟩ := h
  exact ⟨Nat.zero_le _, h2, h3⟩

theorem advance_inv (s t : sequence α) (h : s.Inv) (ht : s.advance = some t) : t.Inv := by
  obtain ⟨h1, h2, h3⟩ := h
  by_cases hc : s.current_index = s.used
  · rw [advance_none s hc] at ht
    cases ht
  · rw [advance_some s hc] at ht
    cases ht
    exact ⟨by simp only []; omega, h2, h3⟩

theorem insert_inv (fresh : Nat → α) (entry : α) (s : sequence α) (h : s.Inv) :
    (s.insert fresh entry).Inv := by
  obtain ⟨h1, h2, h3⟩ := h
  have hroom := grown_room s fresh h2
  rw [grown_used] at hroom
  simp only [sequence.Inv, insert_used, insert_current_index, insert_capacity, insert_point]
  refine ⟨?_, by omega, by omega⟩
  split <;> omega

theorem attach_inv (fresh : Nat → α) (entry : α) (s : sequence α) (h : s.Inv) :
    (s.attach fresh entry).Inv := by
  obtain ⟨h1, h2, h3⟩ := h
  have hroom := grown_room s fresh h2
  rw [grown_used] at hroom
  simp only [sequence.Inv, attach_used, attach_current_index, attach_capacity, attach_point]
  refine ⟨?_, by omega, by omega⟩
  split
  · rename_i hi
    have := (is_item_iff s).1 hi
    omega
  · omega

theorem remove_current_inv (s t : sequence α) (h : s.Inv) (ht : s.remove_current = some t) :
    t.Inv := by
  obtain ⟨h1, h2, h3⟩ := h
  by_cases hc : s.current_index = s.used
  · rw [remove_current_none s hc] at ht
    cases ht
  · rw [remove_current_some s hc] at ht
    cases ht
    simp only [sequence.Inv, shift_left_used, shift_left_current_index, shift_left_capacity]
    omega

theorem reachable_inv {s : sequence α} (h : Reachable s) : s.Inv := by
  induction h with
  | construct fresh n => exact construct_inv fresh n
  | copy_construct fresh _ ih => exact copy_construct_inv fresh _ ih
  | assign fresh _ _ ih1 ih2 =>
    exact assign_inv fresh _ _ ih1 (fun src e => by cases e; exact ih2)
  | assign_itself fresh _ ih => exact ih
  | resize fresh n _ ih => exact resize_inv fresh n _ ih
  | start _ ih => exact start_inv _ ih
  | advance _ ht ih => exact advance_inv _ _ ih ht
  | insert fresh entry _ ih => exact insert_inv fresh entry _ ih
  | attach fresh entry _ ih => exact attach_inv fresh entry _ ih
  | remove_current _ ht ih => exact remove_current_inv _ _ ih ht

/-! ## What the insertions and the removal do to the items -/

theorem insert_items (s : sequence α) (fresh : Nat → α) (entry : α)
    (h : s.current_index ≤ s.used) :
    (s.insert fresh entry).items =
      s.items.take (insert_point s) ++ [entry] ++ s.items.drop (insert_point s) := by
  have hp : insert_point s ≤ s.used := by
    unfold insert_point; split <;> omega
  have key := map_range_insert (grown s fresh).data (s.insert fresh entry).data s.used
    (insert_point s) entry hp (by
      intro k hk
      rw [insert_data]
      by_cases h1 : k = insert_point s
      · simp [h1]
      · by_cases h2 : insert_point s < k
        · have h3 : insert_point s < k ∧ k ≤ s.used + 1 := by omega
          simp [h1, h2, h3]
        · have h3 : ¬ (insert_point s < k ∧ k ≤ s.used + 1) := by omega
          simp [h1, h2, h3])
  have e1 : (List.range s.used).map (grown s fresh).data = s.items := by
    rw [← grown_items s fresh, sequence.items, grown_used]
  rw [e1] at key
  rw [sequence.items, insert_used]
  exact key

theorem attach_items_current (s : sequence α) (fresh : Nat → α) (entry : α)
    (h : s.current_index < s.used) :
    (s.attach fresh entry).items =
      s.items.take (s.current_index + 1) ++ [entry] ++ s.items.drop (s.current_index + 1) := by
  have hi : s.is_item = true := (is_item_iff s).2 (by omega)
  have hpt : attach_point s = s.current_index + 1 := by simp [attach_point, hi]
  have key := map_range_insert (grown s fresh).data (s.attach fresh entry).data s.used
    (s.current_index + 1) entry h (by
      intro k hk
      rw [attach_data, hpt]
      by_cases h1 : k = s.current_index + 1
      · simp [h1]
      · by_cases h2 : s.current_index + 1 < k
        · have h3 : s.current_index + 1 < k ∧ k ≤ s.used + 1 := by omega
          simp [h1, h2, h3, hi]
        · have h3 : ¬ (s.current_index + 1 < k ∧ k ≤ s.used + 1) := by omega
          simp [h1, h2, h3])
  have e1 : (List.range s.used).map (grown s fresh).data = s.items := by
    rw [← grown_items s fresh, sequence.items, grown_used]
  rw [e1] at key
  rw [sequence.items, attach_used]
  exact key

theorem attach_items_no_current (s : sequence α) (fresh : Nat → α) (entry : α)
    (h : s.current_index = s.used) :
    (s.attach fresh entry).items = s.items ++ [entry] := by
  have hi : s.is_item = false := (is_item_false_iff s).2 h
  have hpt : attach_point s = s.used := by simp [attach_point, hi, h]
  rw [sequence.items, attach_used, List.range_succ, List.map_append]
  congr 1
  · rw [← grown_items s fresh, sequence.items, grown_used]
    apply List.map_congr_left
    intro k hk
    have hk2 : k < s.used := by simpa using hk
    have hk3 : k ≠ s.used := by omega
    rw [attach_data, hpt]
    simp [hk3, hi]
  · simp [attach_data, hpt]

theorem remove_current_items (s : sequence α) (h : s.current_index < s.used) :
    ({ shift_left (s.used - 1 - s.current_index) s with
        used := (shift_left (s.used - 1 - s.current_index) s).used - 1 } : sequence α).items =
      s.items.eraseIdx s.current_index := by
  simp only [sequence.items, shift_left_used]
  apply map_range_erase s.data _ s.used s.current_index h
  intro k hk
  rw [shift_left_data]
  by_cases h1 : s.current_index ≤ k
  · have h2 : s.current_index ≤ k ∧ k < s.current_index + (s.used - 1 - s.current_index) := by
      omega
    simp [h1, h2]
  · have h2 : ¬ (s.current_index ≤ k ∧ k < s.current_index + (s.used - 1 - s.current_index)) := by
      omega
    simp [h1, h2]

theorem current_some (s : sequence α) (h : s.current_index ≠ s.used) :
    s.current = some (s.data s.current_index) := by
  have hi : s.is_item = true := (is_item_iff s).2 h
  simp [sequence.current, hi]

theorem current_none (s : sequence α) (h : s.current_index = s.used) : s.current = none := by
  have hi : s.is_item = false := (is_item_false_iff s).2 h
  simp [sequence.current, hi]

theorem insert_point_le (s : sequence α) (h : s.current_index ≤ s.used) :
    insert_point s ≤ s.used := by
  unfold insert_point; split <;> omega

theorem attach_point_le (s : sequence α) (h : s.current_index ≤ s.used) :
    attach_point s ≤ s.used := by
  unfold attach_point
  split
  · rename_i hi
    have := (is_item_iff s).1 hi
    omega
  · omega

theorem reachable_seq57 : Reachable seq57 :=
  Reachable.start (Reachable.attach junk 7 (Reachable.insert junk 5
    (Reachable.construct junk 10)))

/-! ## Which accesses leave the array -/

theorem off_end_of_lt {n i : Nat} (h : i < n) : off_end n i = [] := by
  simp [off_end, h]

theorem off_end_of_ge {n i : Nat} (h : n ≤ i) : off_end n i = [i] := by
  have : ¬ i < n := by omega
  simp [off_end, this]

theorem copy_items_snd (src : Nat → α) (a b n : Nat) (st : (Nat → α) × List Nat)
    (ha : n ≤ a) (hb : n ≤ b) : (copy_items src a b n st).2 = st.2 := by
  induction n with
  | zero => rfl
  | succ n ih =>
    simp only [copy_items]
    rw [ih (by omega) (by omega), off_end_of_lt (by omega : n < a),
      off_end_of_lt (by omega : n < b)]
    simp

theorem resize_overrun (s : sequence α) (fresh : Nat → α) (n : Nat) (h : s.used ≤ s.capacity) :
    (s.resize fresh n).overrun = s.overrun := by
  simp only [sequence.resize]
  apply copy_items_snd _ _ _ _ _ h
  split <;> split <;> omega

theorem grown_overrun (s : sequence α) (fresh : Nat → α) (h : s.used ≤ s.capacity) :
    (grown s fresh).overrun = s.overrun := by
  unfold grown; split
  · exact resize_overrun s fresh _ h
  · rfl

/-- Entered below the capacity, the shift loop stays inside the array. -/
theorem shift_right_overrun_inside (i : Nat) (s : sequence α) (h : i < s.capacity) :
    (shift_right i s).overrun = s.overrun := by
  induction i generalizing s with
  | zero => rfl
  | succ i ih =>
    simp only [shift_right]
    split
    · rw [ih (s.move (i + 1) i) (by simp only [sequence.move]; omega)]
      simp only [sequence.move]
      rw [off_end_of_lt (by omega : i < s.capacity), off_end_of_lt h]
      simp
    · rfl

/-- Entered at the capacity, the first round of the shift loop stores one slot
past the end of the array. -/
theorem shift_right_overrun_edge (i : Nat) (s : sequence α) (h : i + 1 = s.capacity)
    (hc : s.current_index ≤ i) : (shift_right (i + 1) s).overrun = s.overrun ++ [i + 1] := by
  simp only [shift_right]
  rw [if_pos (by omega)]
  rw [shift_right_overrun_inside i (s.move (i + 1) i) (by simp only [sequence.move]; omega)]
  simp only [sequence.move]
  rw [off_end_of_lt (by omega : i < s.capacity), off_end_of_ge (by omega : s.capacity ≤ i + 1)]
  simp

theorem shift_right_overrun (s : sequence α) (hu : s.used < s.capacity)
    (hc : s.current_index ≤ s.used) :
    (shift_right (s.used + 1) s).overrun =
      s.overrun ++ (if s.used + 1 < s.capacity then [] else [s.used + 1]) := by
  split
  · rename_i h
    rw [shift_right_overrun_inside _ s h]; simp
  · exact shift_right_overrun_edge s.used s (by omega) hc

/-- `insert` on a state satisfying the invariant leaves the array exactly when
only one slot is free after the growth check: the first round of its shift
loop then stores at index `used + 1 = capacity`. -/
theorem insert_overrun (s : sequence α) (fresh : Nat → α) (entry : α) (h : s.Inv) :
    (s.insert fresh entry).overrun =
      s.overrun ++
        (if s.used + 1 < (grown s fresh).capacity then [] else [s.used + 1]) := by
  obtain ⟨h1, h2, h3⟩ := h
  have hroom := grown_room s fresh h2
  have hu := grown_used s fresh
  have hci := grown_current_index s fresh
  have hov := grown_overrun s fresh h2
  rw [insert_def]
  split
  · have key := shift_right_overrun { grown s fresh with current_index := 0 } hroom
      (Nat.zero_le _)
    simp only [sequence.store, shift_right_current_index, shift_right_capacity, key]
    rw [off_end_of_lt (by omega : 0 < (grown s fresh).capacity), hov, hu]
    simp
  · have key := shift_right_overrun (grown s fresh) hroom (by omega)
    simp only [sequence.store, shift_right_current_index, shift_right_capacity, key]
    rw [off_end_of_lt (by omega : (grown s fresh).current_index < (grown s fresh).capacity),
      hov, hu]
    simp

/-- `attach` on a state satisfying the invariant leaves the array exactly when
there is a current item and only one slot is free after the growth check. -/
theorem attach_overrun (s : sequence α) (fresh : Nat → α) (entry : α) (h : s.Inv) :
    (s.attach fresh entry).overrun =
      s.overrun ++
        (if s.is_item = true ∧ ¬ s.used + 1 < (grown s fresh).capacity then [s.used + 1]
          else []) := by
  obtain ⟨h1, h2, h3⟩ := h
  have hroom := grown_room s fresh h2
  have hu := grown_used s fresh
  have hci := grown_current_index s fresh
  have hov := grown_overrun s fresh h2
  rw [attach_def, grown_is_item]
  cases hi : s.is_item
  · simp only [Bool.not_false, if_true, sequence.store]
    rw [off_end_of_lt (by omega : (grown s fresh).current_index < (grown s fresh).capacity), hov]
    simp
  · have hne := (is_item_iff s).1 hi
    have key := shift_right_overrun
      { grown s fresh with current_index := (grown s fresh).current_index + 1 } hroom
      (by simp only []; omega)
    simp only [Bool.not_true, sequence.store, shift_right_current_index,
      shift_right_capacity, key]
    rw [off_end_of_lt (by omega : (grown s fresh).current_index + 1 < (grown s fresh).capacity),
      hov, hu]
    by_cases hlt : s.used + 1 < (grown s fresh).capacity <;> simp [hlt]

/-- With two slots free after the growth check, `insert` stays inside the
array, puts the entry at `current_index`, or at 0 without a current item, and
makes it the current item. -/
theorem insert_inside_array (s : sequence α) (fresh : Nat → α) (v : α) (h : s.Inv)
    (hroom : s.used + 1 < (grown s fresh).capacity) :
    (s.insert fresh v).overrun = s.overrun ∧
      (s.insert fresh v).items =
        s.items.take (insert_point s) ++ [v] ++ s.items.drop (insert_point s) ∧
      (s.insert fresh v).used = s.used + 1 ∧
      (s.insert fresh v).current_index = insert_point s ∧
      (s.insert fresh v).current = some v := by
  have hp := insert_point_le s h.1
  have hne : (s.insert fresh v).current_index ≠ (s.insert fresh v).used := by
    rw [insert_current_index, insert_used]; omega
  refine ⟨?_, insert_items s fresh v h.1, insert_used s fresh v,
    insert_current_index s fresh v, ?_⟩
  · rw [insert_overrun s fresh v h, if_pos hroom]; simp
  · rw [current_some _ hne, insert_current_index, insert_data, if_pos rfl]

/-- With a current item and two slots free after the growth check, `attach`
stays inside the array, puts the entry right after the current item and makes
it the current item. -/
theorem attach_inside_array (s : sequence α) (fresh : Nat → α) (v : α) (h : s.Inv)
    (hc : s.current_index < s.used) (hroom : s.used + 1 < (grown s fresh).capacity) :
    (s.attach fresh v).overrun = s.overrun ∧
      (s.attach fresh v).items =
        s.items.take (s.current_index + 1) ++ [v] ++ s.items.drop (s.current_index + 1) ∧
      (s.attach fresh v).used = s.used + 1 ∧
      (s.attach fresh v).current_index = s.current_index + 1 ∧
      (s.attach fresh v).current = some v := by
  have hi : s.is_item = true := (is_item_iff s).2 (by omega)
  have hpt : attach_point s = s.current_index + 1 := by simp [attach_point, hi]
  have hne : (s.attach fresh v).current_index ≠ (s.attach fresh v).used := by
    rw [attach_current_index, attach_used, hpt]; omega
  refine ⟨?_, attach_items_current s fresh v hc, attach_used s fresh v, ?_, ?_⟩
  · rw [attach_overrun s fresh v h]
    have : ¬ (s.is_item = true ∧ ¬ s.used + 1 < (grown s fresh).capacity) := by
      intro hh; exact hh.2 hroom
    rw [if_neg this]; simp
  · rw [attach_current_index, hpt]
  · rw [current_some _ hne, attach_current_index, attach_data, if_pos rfl]

/-! ## The claims -/

/-- C1: every state obtained from the constructor by copy construction, copy
assignment, `resize`, `start`, `advance`, `insert`, `attach` and
`remove_current` (the two asserting functions only where a current item
exists) has `0 ≤ current_index ≤ used ≤ capacity` and `capacity ≥ 1`. -/
theorem invariant_of_reachable (s : sequence α) (h : Reachable s) :
    0 ≤ s.current_index ∧ s.current_index ≤ s.used ∧ s.used ≤ s.capacity ∧ 1 ≤ s.capacity :=
  ⟨Nat.zero_le _, reachable_inv h⟩

theorem invariant_of_reachable_witness :
    Reachable seq57 ∧
      (0 ≤ seq57.current_index ∧ seq57.current_index ≤ seq57.used ∧
        seq57.used ≤ seq57.capacity ∧ 1 ≤ seq57.capacity) :=
  ⟨reachable_seq57, invariant_of_reachable seq57 reachable_seq57⟩

/-- C2 fails on the code: on `[5]` in an array of two slots, where the claim
gives `[6, 5]`, `insert(6)` does not grow the array and its shift loop starts
with `data[2] = data[1]`, a store at index `capacity`; in the claim's own
scenario with capacity 1, `insert(5)` on the empty sequence stores at index 1
of a one-slot array. -/
theorem one_free_slot_insert_leaves_array :
    half2.Inv ∧ half2.items = [5] ∧ half2.current_index = 0 ∧ half2.capacity = 2 ∧
      half2.overrun = [] ∧
      (half2.insert junk 6).capacity = 2 ∧ (half2.insert junk 6).overrun = [2] ∧
      (sequence.construct junk 0).Inv ∧ (sequence.construct junk 0).capacity = 1 ∧
      ((sequence.construct junk 0).insert junk 5).capacity = 1 ∧
      ((sequence.construct junk 0).insert junk 5).overrun = [1] := by
  decide

/-- C3 fails on the code: on `[5]` with the cursor on `5` in an array of two
slots (the claim's scenario), `attach(7)` moves the cursor to 1 and its shift
loop executes `data[2] = data[1]`, a store at index `capacity`; on `[1, 2]`
with the cursor on `2` in three slots, `attach(3)` stores at index 3. -/
theorem one_free_slot_attach_leaves_array :
    half2.Inv ∧ half2.items = [5] ∧ half2.current = some 5 ∧ half2.capacity = 2 ∧
      half2.overrun = [] ∧
      (half2.attach junk 7).capacity = 2 ∧ (half2.attach junk 7).overrun = [2] ∧
      two_of_three.Inv ∧ two_of_three.items = [1, 2] ∧ two_of_three.capacity = 3 ∧
      two_of_three.overrun = [] ∧
      (two_of_three.attach junk 3).capacity = 3 ∧
      (two_of_three.attach junk 3).overrun = [3] := by
  decide

/-- C4, as stated, fails: on the sequence `[5]` with no current item,
`attach(7)` gives `[5, 7]` with the cursor at index 1, where the claim (and
`insert(7)`) gives `[7, 5]` with the cursor at index 0. -/
theorem attach_no_current_not_at_front :
    ¬ ∀ (s : sequence Int) (v : Int), s.Inv → s.current_index = s.used →
        (s.attach junk v).items = [v] ++ s.items ∧
          (s.attach junk v).current_index = 0 ∧
          (s.attach junk v).current = some v ∧
          (s.attach junk v).size = (s.insert junk v).size ∧
          (s.attach junk v).current_index = (s.insert junk v).current_index ∧
          (s.attach junk v).items = (s.insert junk v).items := by
  intro H
  have h := (H seq5_end 7 (by decide) (by decide)).2.1
  revert h
  decide

/-- C4, amended: `attach` on a state satisfying the invariant with no current
item puts the entry at the end: the items become the old items followed by the
entry, `current_index` is the old `used`, the entry is the current item, and
the size is the one `insert` produces; the cursor and the items are those
`insert` produces exactly when the sequence was empty. -/
theorem attach_no_current_at_end (s : sequence α) (fresh : Nat → α) (v : α) (h : s.Inv)
    (hc : s.current_index = s.used) :
    (s.attach fresh v).items = s.items ++ [v] ∧
      (s.attach fresh v).current_index = s.used ∧
      (s.attach fresh v).current = some v ∧
      (s.attach fresh v).size = (s.insert fresh v).size ∧
      (((s.attach fresh v).current_index = (s.insert fresh v).current_index ∧
          (s.attach fresh v).items = (s.insert fresh v).items) ↔ s.used = 0) := by
  have hi : s.is_item = false := (is_item_false_iff s).2 hc
  have hci : (s.attach fresh v).current_index = s.used := by
    rw [attach_current_index, attach_point]; simp [hi, hc]
  have hii : (s.insert fresh v).current_index = 0 := by
    rw [insert_current_index, insert_point]; simp [hi]
  have hitems := attach_items_no_current s fresh v hc
  refine ⟨hitems, hci, ?_, ?_, ?_⟩
  · rw [current_some _ (by rw [hci, attach_used]; omega), hci, attach_data]
    simp [attach_point, hi, hc]
  · simp [sequence.size, attach_used, insert_used]
  · constructor
    · rintro ⟨h1, _⟩
      rw [hci, hii] at h1
      exact h1
    · intro h0
      refine ⟨by rw [hci, hii, h0], ?_⟩
      have hnil : s.items = [] := by
        apply List.eq_nil_of_length_eq_zero
        rw [items_length, h0]
      rw [hitems, insert_items s fresh v h.1, hnil]
      simp

theorem attach_no_current_at_end_witness :
    seq5_end.Inv ∧ seq5_end.current_index = seq5_end.used ∧
      ((seq5_end.attach junk 7).items = seq5_end.items ++ [7] ∧
        (seq5_end.attach junk 7).current_index = seq5_end.used ∧
        (seq5_end.attach junk 7).current = some 7 ∧
        (seq5_end.attach junk 7).size = (seq5_end.insert junk 7).size ∧
        (((seq5_end.attach junk 7).current_index = (seq5_end.insert junk 7).current_index ∧
            (seq5_end.attach junk 7).items = (seq5_end.insert junk 7).items) ↔
          seq5_end.used = 0)) ∧
      (seq5_end.attach junk 7).items = [5, 7] :=
  ⟨by decide, by decide, attach_no_current_at_end seq5_end junk 7 (by decide) (by decide),
    by decide⟩

/-- C5 fails on the code: on `[1, 2]` with the cursor on `2` in an array of
three slots, `insert(9)` and `attach(9)` each store at index 3, outside the
array, on their way to making 9 the current item; on the full sequence `[5]`
in one slot both grow the array to two slots and then store at index 2. -/
theorem entry_made_current_past_array :
    two_of_three.Inv ∧ two_of_three.capacity = 3 ∧ two_of_three.overrun = [] ∧
      (two_of_three.insert junk 9).capacity = 3 ∧
      (two_of_three.insert junk 9).overrun = [3] ∧
      (two_of_three.attach junk 9).capacity = 3 ∧
      (two_of_three.attach junk 9).overrun = [3] ∧
      full1.Inv ∧ full1.used = 1 ∧ full1.capacity = 1 ∧ full1.overrun = [] ∧
      (full1.insert junk 9).capacity = 2 ∧ (full1.insert junk 9).overrun = [2] ∧
      (full1.attach junk 9).capacity = 2 ∧ (full1.attach junk 9).overrun = [2] := by
  decide

/-- C6: `remove_current` on a state satisfying the invariant with a current
item at `c` succeeds; the items are the old items with index `c` deleted,
`used` has shrunk by one, `current_index` and `capacity` are unchanged;
`is_item()` holds afterwards exactly when the removed item was not the last
one, and then `current()` is the item that was at index `c + 1`. -/
theorem remove_current_deletes (s : sequence α) (_h : s.Inv) (hc : s.current_index < s.used) :
    ∃ t, s.remove_current = some t ∧
      t.items = s.items.eraseIdx s.current_index ∧
      t.used + 1 = s.used ∧
      t.current_index = s.current_index ∧
      t.capacity = s.capacity ∧
      (t.is_item = true ↔ s.current_index + 1 < s.used) ∧
      (s.current_index + 1 < s.used → t.current = some (s.data (s.current_index + 1))) := by
  refine ⟨_, remove_current_some s (by omega), remove_current_items s hc, ?_, ?_, ?_, ?_, ?_⟩
  · simp only [shift_left_used]; omega
  · simp only [shift_left_current_index]
  · simp only [shift_left_capacity]
  · rw [is_item_iff]
    simp only [shift_left_used, shift_left_current_index]
    omega
  · intro hlast
    rw [current_some _ (by simp only [shift_left_used, shift_left_current_index]; omega)]
    simp only [shift_left_current_index, shift_left_data]
    have h2 : s.current_index ≤ s.current_index ∧
        s.current_index < s.current_index + (s.used - 1 - s.current_index) := by omega
    rw [if_pos h2]

theorem remove_current_deletes_witness :
    seq57.Inv ∧ seq57.current_index < seq57.used ∧
      (∃ t, seq57.remove_current = some t ∧
        t.items = seq57.items.eraseIdx seq57.current_index ∧
        t.used + 1 = seq57.used ∧
        t.current_index = seq57.current_index ∧
        t.capacity = seq57.capacity ∧
        (t.is_item = true ↔ seq57.current_index + 1 < seq57.used) ∧
        (seq57.current_index + 1 < seq57.used →
          t.current = some (seq57.data (seq57.current_index + 1)))) ∧
      seq57.items = [5, 7] ∧ seq57.current = some 5 ∧
      seq57.remove_current.map sequence.items = some [7] ∧
      (seq57.remove_current.bind sequence.current) = some 7 :=
  ⟨by decide, by decide, remove_current_deletes seq57 (by decide) (by decide),
    by decide, by decide, by decide, by decide⟩

/-- C7 fails on the code: on `[5, 7]` in an array of ten slots, `resize(1)`
leaves the capacity at 10, where the claim gives `max(1, used, 1) = 2`. -/
theorem resize_below_used_keeps_capacity :
    seq57.Inv ∧ seq57.used = 2 ∧ seq57.capacity = 10 ∧
      (seq57.resize junk 1).capacity = 10 ∧
      (seq57.resize junk 1).capacity ≠ max 1 (max seq57.used 1) := by
  decide

/-- C8: `resize` on a state satisfying the invariant leaves `used`,
`current_index` and every occupied slot unchanged, and so `size()`,
`is_item()` and `current()` return what they returned before. -/
theorem resize_preserves_contents (s : sequence α) (fresh : Nat → α) (n : Nat) (h : s.Inv) :
    (s.resize fresh n).used = s.used ∧
      (s.resize fresh n).current_index = s.current_index ∧
      (∀ k, k < s.used → (s.resize fresh n).data k = s.data k) ∧
      (s.resize fresh n).items = s.items ∧
      (s.resize fresh n).size = s.size ∧
      (s.resize fresh n).is_item = s.is_item ∧
      (s.resize fresh n).current = s.current := by
  have hd : ∀ k, k < s.used → (s.resize fresh n).data k = s.data k :=
    fun k hk => resize_data s fresh n k hk
  refine ⟨rfl, rfl, hd, items_congr s _ rfl hd, rfl, rfl, ?_⟩
  by_cases hc : s.current_index = s.used
  · rw [current_none s hc, current_none _ (by rw [resize_current_index, resize_used]; exact hc)]
  · rw [current_some s hc,
      current_some _ (by rw [resize_current_index, resize_used]; exact hc),
      resize_current_index, hd _ (by have := h.1; omega)]

theorem resize_preserves_contents_witness :
    seq57.Inv ∧
      ((seq57.resize junk 40).used = seq57.used ∧
        (seq57.resize junk 40).current_index = seq57.current_index ∧
        (∀ k, k < seq57.used → (seq57.resize junk 40).data k = seq57.data k) ∧
        (seq57.resize junk 40).items = seq57.items ∧
        (seq57.resize junk 40).size = seq57.size ∧
        (seq57.resize junk 40).is_item = seq57.is_item ∧
        (seq57.resize junk 40).current = seq57.current) ∧
      (seq57.resize junk 40).capacity = 40 ∧ (seq57.resize junk 40).items = [5, 7] :=
  ⟨by decide, resize_preserves_contents seq57 junk 40 (by decide), by decide, by decide⟩

/-- C10 fails on the code: on the empty sequence built with capacity 1,
`insert(5)` does not grow the array and its shift loop stores at index 1, past
the only slot; `attach` does the same on `[5]` once the array has grown to two
slots. -/
theorem insert_stores_past_capacity :
    empty1.Inv ∧ empty1.used = 0 ∧ empty1.capacity = 1 ∧ empty1.overrun = [] ∧
      (empty1.insert junk 5).capacity = 1 ∧ (empty1.insert junk 5).overrun = [1] ∧
      ((empty1.attach junk 5).attach junk 7).capacity = 2 ∧
      ((empty1.attach junk 5).attach junk 7).overrun = [2] := by
  decide

/-! ## The claims, continued -/

/-- C11: `advance()`, `current()` and `remove_current()` each fail their
assertion exactly when `current_index == used`; with a current item each of
them succeeds, and `current()` is `data[current_index]`, computed from the
state without changing it. -/
theorem assertions_fail_iff_no_current (s : sequence α) :
    (s.advance = none ↔ s.current_index = s.used) ∧
      (s.current = none ↔ s.current_index = s.used) ∧
      (s.remove_current = none ↔ s.current_index = s.used) ∧
      (s.current_index ≠ s.used →
        s.advance.isSome = true ∧ s.remove_current.isSome = true ∧
          s.current = some (s.data s.current_index)) := by
  refine ⟨?_, ?_, ?_, ?_⟩
  · constructor
    · intro h
      by_contra hc
      rw [advance_some s hc] at h
      cases h
    · exact advance_none s
  · constructor
    · intro h
      by_contra hc
      rw [current_some s hc] at h
      cases h
    · exact current_none s
  · constructor
    · intro h
      by_contra hc
      rw [remove_current_some s hc] at h
      cases h
    · exact remove_current_none s
  · intro hc
    rw [advance_some s hc, remove_current_some s hc, current_some s hc]
    exact ⟨rfl, rfl, rfl⟩

theorem assertions_fail_iff_no_current_witness :
    (seq57_end.advance = none ↔ seq57_end.current_index = seq57_end.used) ∧
      seq57_end.current = none ∧ seq57_end.remove_current.isSome = false ∧
      seq57.current = some 5 ∧ seq57.advance.isSome = true :=
  ⟨(assertions_fail_iff_no_current seq57_end).1, by decide, by decide, by decide, by decide⟩

/-- C12 fails on the code: from `sequence s(1);` the single call `insert(5)`
stores at index 1 of the one-slot array, and the calls
`attach(1); insert(2); attach(3);` store at index 2 of a two-slot array, before
any traversal starts. -/
theorem build_leaves_array_before_traversal :
    (sequence.construct junk 1).capacity = 1 ∧
      ((sequence.construct junk 1).build junk [.insert 5]).capacity = 1 ∧
      ((sequence.construct junk 1).build junk [.insert 5]).overrun = [1] ∧
      ((sequence.construct junk 1).build junk [.attach 1]).overrun = [] ∧
      ((sequence.construct junk 1).build junk [.attach 1]).capacity = 1 ∧
      ((sequence.construct junk 1).build junk [.attach 1, .insert 2]).capacity = 2 ∧
      ((sequence.construct junk 1).build junk [.attach 1, .insert 2]).overrun = [2] ∧
      ((sequence.construct junk 1).build junk [.attach 1, .insert 2, .attach 3]).overrun =
        [2] := by
  decide

/-- C14: after `target = source` the target has the source's `used`,
`current_index`, `capacity` and items, whatever it held before; the
self-assignment `a = a` leaves the object as it was. -/
theorem assignment_copies_source (target source a : sequence α) (fresh : Nat → α) :
    (target.assign fresh (.other source)).used = source.used ∧
      (target.assign fresh (.other source)).current_index = source.current_index ∧
      (target.assign fresh (.other source)).capacity = source.capacity ∧
      (target.assign fresh (.other source)).items = source.items ∧
      (a.assign fresh .itself).used = a.used ∧
      (a.assign fresh .itself).current_index = a.current_index ∧
      (a.assign fresh .itself).capacity = a.capacity ∧
      (a.assign fresh .itself).items = a.items ∧
      a.assign fresh .itself = a := by
  refine ⟨rfl, rfl, rfl, ?_, rfl, rfl, rfl, rfl, rfl⟩
  apply items_congr source (target.assign fresh (.other source)) rfl
  intro k hk
  simp [sequence.assign, copy_items_fst, hk]

theorem assignment_copies_source_witness :
    (seq5.assign junk2 (.other seq57)).items = seq57.items ∧
      (seq5.assign junk2 (.other seq57)).items = [5, 7] ∧
      (seq5.assign junk2 (.other seq57)).capacity = 10 ∧
      (seq57.assign junk2 .itself).items = [5, 7] :=
  ⟨(assignment_copies_source seq5 seq57 seq57 junk2).2.2.2.1, by decide, by decide, by decide⟩

/-- C15: `sequence(h)` gives `used = 0`, `current_index = 0` and
`capacity = max(1, h)`, so `is_item()` is false and `size()` is 0; on every
state, with or without a current item, `start()` sets `current_index` to 0 and
keeps `used`, `capacity` and the array, so `is_item()` holds after it exactly
when `used > 0`; `advance()` with a current item adds one to `current_index`
and keeps everything else. -/
theorem construction_and_navigation (fresh : Nat → α) (hint : Nat) (s : sequence α) :
    ((sequence.construct fresh hint).used = 0 ∧
        (sequence.construct fresh hint).current_index = 0 ∧
        (sequence.construct fresh hint).capacity = max 1 hint ∧
        (sequence.construct fresh hint).is_item = false ∧
        (sequence.construct fresh hint).size = 0) ∧
      (s.start.current_index = 0 ∧ s.start.used = s.used ∧ s.start.capacity = s.capacity ∧
        s.start.data = s.data ∧ s.start.items = s.items ∧
        (s.start.is_item = true ↔ 0 < s.used)) ∧
      (s.current_index ≠ s.used →
        ∃ t, s.advance = some t ∧ t.current_index = s.current_index + 1 ∧ t.used = s.used ∧
          t.capacity = s.capacity ∧ t.data = s.data ∧ t.items = s.items) := by
  refine ⟨⟨rfl, rfl, ?_, rfl, rfl⟩, ⟨rfl, rfl, rfl, rfl, rfl, ?_⟩, ?_⟩
  · simp only [sequence.construct]
    split <;> omega
  · rw [is_item_iff]
    simp only [sequence.start]
    omega
  · intro hc
    exact ⟨_, advance_some s hc, rfl, rfl, rfl, rfl, rfl⟩

theorem construction_and_navigation_witness :
    (seq57_end.current_index = 2 ∧ seq57_end.used = 2 ∧
        seq57_end.start.current_index = 0 ∧ seq57_end.start.used = 2 ∧
        seq57_end.start.is_item = true) ∧
      (empty10.start.current_index = 0 ∧ empty10.start.is_item = false) ∧
      (sequence.construct junk 0).capacity = 1 ∧
      (∃ t, seq57.advance = some t ∧ t.current_index = seq57.current_index + 1 ∧
        t.used = seq57.used ∧ t.capacity = seq57.capacity ∧ t.data = seq57.data ∧
        t.items = seq57.items) ∧
      seq57.advance.bind sequence.current = some 7 :=
  ⟨⟨by decide, by decide, (construction_and_navigation junk 0 seq57_end).2.1.1, by decide,
      by decide⟩,
    ⟨(construction_and_navigation junk 0 empty10).2.1.1, by decide⟩, by decide,
    (construction_and_navigation junk 0 seq57).2.2 (by decide), by decide⟩

/-- C16 fails on the code: from `sequence s(1);` the calls
`attach(1); attach(2);` grow the array to two slots and store at index 2 of
it, where the claim gives `[1, 2]`; seven calls of `attach` store at index 2 of
two slots, index 4 of four and index 7 of seven. -/
theorem repeated_attach_leaves_array :
    ((sequence.construct junk 1).attach_all junk [1]).overrun = [] ∧
      ((sequence.construct junk 1).attach_all junk [1, 2]).capacity = 2 ∧
      ((sequence.construct junk 1).attach_all junk [1, 2]).overrun = [2] ∧
      ((sequence.construct junk 1).attach_all junk [1, 2, 3, 4, 5, 6, 7]).capacity = 7 ∧
      ((sequence.construct junk 1).attach_all junk [1, 2, 3, 4, 5, 6, 7]).overrun =
        [2, 4, 7] := by
  decide

/-- C17 fails on the code: from `sequence s(1);` the first `insert(1)` stores
at index 1 of the one-slot array, where the claim gives `[1]`; from
`sequence s(3);` the calls `insert(1); insert(2); insert(3);` store at index 3
of the three-slot array on the third call. -/
theorem repeated_insert_leaves_array :
    (sequence.construct junk 1).capacity = 1 ∧
      ((sequence.construct junk 1).insert_all junk [1]).capacity = 1 ∧
      ((sequence.construct junk 1).insert_all junk [1]).overrun = [1] ∧
      ((sequence.construct junk 3).insert_all junk [1, 2]).overrun = [] ∧
      ((sequence.construct junk 3).insert_all junk [1, 2, 3]).capacity = 3 ∧
      ((sequence.construct junk 3).insert_all junk [1, 2, 3]).overrun = [3] := by
  decide

/-- C18: `attach` on a state satisfying the invariant with no current item,
`current_index == used = n`, puts the entry at index `n`: the items become the
old items followed by the entry, `used` is `n + 1` and `current_index` is
still `n`. -/
theorem attach_without_current_appends (s : sequence α) (fresh : Nat → α) (v : α)
    (_h : s.Inv) (hc : s.current_index = s.used) :
    (s.attach fresh v).items = s.items ++ [v] ∧
      (s.attach fresh v).used = s.used + 1 ∧
      (s.attach fresh v).current_index = s.current_index := by
  have hi : s.is_item = false := (is_item_false_iff s).2 hc
  refine ⟨attach_items_no_current s fresh v hc, attach_used s fresh v, ?_⟩
  rw [attach_current_index, attach_point]
  simp [hi]

theorem attach_without_current_appends_witness :
    seq57_end.Inv ∧ seq57_end.current_index = seq57_end.used ∧
      ((seq57_end.attach junk 9).items = seq57_end.items ++ [9] ∧
        (seq57_end.attach junk 9).used = seq57_end.used + 1 ∧
        (seq57_end.attach junk 9).current_index = seq57_end.current_index) ∧
      seq57_end.items = [5, 7] ∧ (seq57_end.attach junk 9).items = [5, 7, 9] ∧
      (seq57_end.attach junk 9).current_index = 2 :=
  ⟨by decide, by decide, attach_without_current_appends seq57_end junk 9 (by decide) (by decide),
    by decide, by decide, by decide⟩

/-- C19 fails on the code: on `[5]` in an array of two slots, the `insert(6)`
of the round trip stores at index 2, outside the array, before
`remove_current()` is called; on the empty sequence in one slot it stores at
index 1. -/
theorem round_trip_leaves_array :
    half2.Inv ∧ half2.is_item = true ∧ half2.capacity = 2 ∧ half2.overrun = [] ∧
      (half2.insert junk 6).overrun = [2] ∧
      (half2.insert junk 6).remove_current.map sequence.overrun = some [2] ∧
      empty1.Inv ∧ empty1.is_item = false ∧ empty1.capacity = 1 ∧
      (empty1.insert junk 6).remove_current.map sequence.overrun = some [1] := by
  decide

/-- C20 fails on the code: two empty sequences in one slot that have the same
counters and items and hold 111 and 222 in their unoccupied slot are both
taken by `insert(5)` to a store at index 1, outside the array, and what is
stored there is the unoccupied slot's content, 111 in one and 222 in the
other. -/
theorem unused_slot_stored_past_array :
    agree empty_on_111 empty_on_222 ∧ empty_on_111.Inv ∧ empty_on_222.Inv ∧
      empty_on_111.capacity = 1 ∧ empty_on_222.capacity = 1 ∧
      empty_on_111.overrun = [] ∧ empty_on_222.overrun = [] ∧
      empty_on_111.data 0 = 111 ∧ empty_on_222.data 0 = 222 ∧
      (empty_on_111.insert junk 5).overrun = [1] ∧
      (empty_on_222.insert junk 5).overrun = [1] ∧
      (empty_on_111.insert junk 5).data 1 = 111 ∧
      (empty_on_222.insert junk 5).data 1 = 222 := by
  decide

/-! ## The free store: what a call leaves alone, and what it computes -/

theorem write_cells_other (m : free_store α) (p i : Nat) (x : α) (a : Nat) (h : a ≠ p) :
    (m.write p i x).cells a = m.cells a := by
  simp [free_store.write, h]

theorem write_cells_same (m : free_store α) (p i : Nat) (x : α) :
    (m.write p i x).cells p = fun k => if k = i then x else m.cells p k := by
  simp [free_store.write]

theorem allocate_cells_other (m : free_store α) (f : Nat → α) (a : Nat) (h : a ≠ m.next) :
    (m.allocate f).cells a = m.cells a := by
  simp [free_store.allocate, h]

theorem allocate_cells_new (m : free_store α) (f : Nat → α) :
    (m.allocate f).cells m.next = f := by
  simp [free_store.allocate]

theorem fs_copy_items_next (dst src n : Nat) (m : free_store α) :
    (free_store.copy_items dst src n m).next = m.next := by
  induction n with
  | zero => rfl
  | succ n ih => simpa [free_store.copy_items, free_store.write] using ih

theorem fs_copy_items_other (dst src n : Nat) (m : free_store α) (a : Nat) (h : a ≠ dst) :
    (free_store.copy_items dst src n m).cells a = m.cells a := by
  induction n with
  | zero => rfl
  | succ n ih =>
    simp only [free_store.copy_items]
    rw [write_cells_other _ _ _ _ _ h, ih]

theorem fs_copy_items_dst (dst src n : Nat) (m : free_store α) (h : src ≠ dst) (k : Nat) :
    (free_store.copy_items dst src n m).cells dst k =
      if k < n then m.cells src k else m.cells dst k := by
  induction n with
  | zero => simp [free_store.copy_items]
  | succ n ih =>
    simp only [free_store.copy_items]
    rw [write_cells_same, fs_copy_items_other dst src n m src h]
    by_cases hk : k = n
    · subst hk; simp
    · have h1 : k < n + 1 ↔ k < n := by omega
      simp [hk, ih, h1]

theorem fs_shift_right_next (p c i : Nat) (m : free_store α) :
    (free_store.shift_right p c i m).next = m.next := by
  induction i generalizing m with
  | zero => rfl
  | succ i ih =>
    simp only [free_store.shift_right]
    split
    · rw [ih]; rfl
    · rfl

theorem fs_shift_right_other (p c i : Nat) (m : free_store α) (a : Nat) (h : a ≠ p) :
    (free_store.shift_right p c i m).cells a = m.cells a := by
  induction i generalizing m with
  | zero => rfl
  | succ i ih =>
    simp only [free_store.shift_right]
    split
    · rw [ih, write_cells_other _ _ _ _ _ h]
    · rfl

theorem fs_shift_left_next (p c n : Nat) (m : free_store α) :
    (free_store.shift_left p c n m).next = m.next := by
  induction n with
  | zero => rfl
  | succ n ih => simpa [free_store.shift_left, free_store.write] using ih

theorem fs_shift_left_other (p c n : Nat) (m : free_store α) (a : Nat) (h : a ≠ p) :
    (free_store.shift_left p c n m).cells a = m.cells a := by
  induction n with
  | zero => rfl
  | succ n ih =>
    simp only [free_store.shift_left]
    rw [write_cells_other _ _ _ _ _ h, ih]

/-- The shift loop on the array at `p` computes what the loop of the embedding
of `insert` computes on the contents of that array. -/
theorem fs_shift_right_same (p i : Nat) (m : free_store α) (s : sequence α)
    (hd : m.cells p = s.data) :
    (free_store.shift_right p s.current_index i m).cells p = (shift_right i s).data := by
  induction i generalizing m s with
  | zero => exact hd
  | succ i ih =>
    simp only [free_store.shift_right, shift_right]
    split
    · have := ih (m.write p (i + 1) (m.cells p i)) (s.move (i + 1) i) (by
        rw [write_cells_same, hd]; rfl)
      simpa [sequence.move] using this
    · exact hd

theorem fs_shift_left_same (p n : Nat) (m : free_store α) (s : sequence α)
    (hd : m.cells p = s.data) :
    (free_store.shift_left p s.current_index n m).cells p = (shift_left n s).data := by
  induction n with
  | zero => exact hd
  | succ n ih =>
    simp only [free_store.shift_left, shift_left]
    rw [write_cells_same, ih, shift_left_current_index]
    rfl

theorem view_is_item (o : object) (m : free_store α) : (o.view m).is_item = o.is_item := rfl

theorem same_state_is_item (s t : sequence α) (h : same_state s t) : s.is_item = t.is_item := by
  obtain ⟨_, h2, h3, _⟩ := h
  simp [sequence.is_item, h2, h3]

theorem same_state_items (s t : sequence α) (h : same_state s t) : s.items = t.items := by
  obtain ⟨h1, h2, _, _⟩ := h
  simp [sequence.items, h1, h2]

theorem same_state_inv (s t : sequence α) (h : same_state s t) (hs : s.Inv) : t.Inv := by
  obtain ⟨_, h2, h3, h4⟩ := h
  obtain ⟨a, b, c⟩ := hs
  exact ⟨by omega, by omega, by omega⟩

theorem object_resize_other (o : object) (m : free_store α) (f : Nat → α) (n a : Nat)
    (h : a < m.next) : (o.resize m f n).1.cells a = m.cells a := by
  simp only [object.resize]
  rw [fs_copy_items_other _ _ _ _ _ (by omega), allocate_cells_other _ _ _ (by omega)]

theorem object_resize_same (o : object) (m : free_store α) (f : Nat → α) (n : Nat)
    (h : o.data < m.next) :
    same_state ((o.resize m f n).2.view (o.resize m f n).1) ((o.view m).resize f n) := by
  refine ⟨?_, rfl, rfl, rfl⟩
  funext k
  simp only [object.view, object.resize, sequence.resize, copy_items_fst]
  rw [fs_copy_items_dst _ _ _ _ (by omega), allocate_cells_other _ _ _ (by omega),
    allocate_cells_new]

theorem object_grown_other (o : object) (m : free_store α) (f : Nat → α) (a : Nat)
    (h : a < m.next) : (o.grown m f).1.cells a = m.cells a := by
  unfold object.grown; split
  · exact object_resize_other o m f _ a h
  · rfl

/-- The array of the object after the growth check is its old array or one
that was not allocated before. -/
theorem object_grown_data (o : object) (m : free_store α) (f : Nat → α) :
    (o.grown m f).2.data = o.data ∨ (o.grown m f).2.data = m.next := by
  unfold object.grown; split
  · exact Or.inr rfl
  · exact Or.inl rfl

theorem object_grown_same (o : object) (m : free_store α) (f : Nat → α)
    (h : o.data < m.next) :
    same_state ((o.grown m f).2.view (o.grown m f).1) (grown (o.view m) f) := by
  unfold object.grown grown
  by_cases hc : o.used = o.capacity
  · have hc2 : (o.view m).used = (o.view m).capacity := hc
    rw [if_pos hc, if_pos hc2]
    exact object_resize_same o m f _ h
  · have hc2 : ¬ (o.view m).used = (o.view m).capacity := hc
    rw [if_neg hc, if_neg hc2]
    exact ⟨rfl, rfl, rfl, rfl⟩

theorem object_insert_def (o : object) (m : free_store α) (f : Nat → α) (v : α) :
    o.insert m f v =
      if !(o.grown m f).2.is_item then
        ((free_store.shift_right (o.grown m f).2.data 0 ((o.grown m f).2.used + 1)
            (o.grown m f).1).write (o.grown m f).2.data 0 v,
          { (o.grown m f).2 with current_index := 0, used := (o.grown m f).2.used + 1 })
      else
        ((free_store.shift_right (o.grown m f).2.data (o.grown m f).2.current_index
            ((o.grown m f).2.used + 1) (o.grown m f).1).write (o.grown m f).2.data
            (o.grown m f).2.current_index v,
          { (o.grown m f).2 with used := (o.grown m f).2.used + 1 }) := rfl

theorem object_attach_def (o : object) (m : free_store α) (f : Nat → α) (v : α) :
    o.attach m f v =
      if !(o.grown m f).2.is_item then
        ((o.grown m f).1.write (o.grown m f).2.data (o.grown m f).2.current_index v,
          { (o.grown m f).2 with used := (o.grown m f).2.used + 1 })
      else
        ((free_store.shift_right (o.grown m f).2.data ((o.grown m f).2.current_index + 1)
            ((o.grown m f).2.used + 1) (o.grown m f).1).write (o.grown m f).2.data
            ((o.grown m f).2.current_index + 1) v,
          { (o.grown m f).2 with
            current_index := (o.grown m f).2.current_index + 1
            used := (o.grown m f).2.used + 1 }) := rfl

theorem object_insert_other (o : object) (m : free_store α) (f : Nat → α) (v : α) (a : Nat)
    (h1 : a ≠ o.data) (h2 : a < m.next) : (o.insert m f v).1.cells a = m.cells a := by
  have hp : a ≠ (o.grown m f).2.data := by
    rcases object_grown_data o m f with e | e <;> rw [e] <;> omega
  rw [object_insert_def]
  split
  · rw [write_cells_other _ _ _ _ _ hp, fs_shift_right_other _ _ _ _ _ hp,
      object_grown_other o m f a h2]
  · rw [write_cells_other _ _ _ _ _ hp, fs_shift_right_other _ _ _ _ _ hp,
      object_grown_other o m f a h2]

theorem object_attach_other (o : object) (m : free_store α) (f : Nat → α) (v : α) (a : Nat)
    (h1 : a ≠ o.data) (h2 : a < m.next) : (o.attach m f v).1.cells a = m.cells a := by
  have hp : a ≠ (o.grown m f).2.data := by
    rcases object_grown_data o m f with e | e <;> rw [e] <;> omega
  rw [object_attach_def]
  split
  · rw [write_cells_other _ _ _ _ _ hp, object_grown_other o m f a h2]
  · rw [write_cells_other _ _ _ _ _ hp, fs_shift_right_other _ _ _ _ _ hp,
      object_grown_other o m f a h2]

theorem object_remove_current_other (o : object) (m : free_store α) (a : Nat)
    (r : free_store α × object) (h1 : a ≠ o.data) (hr : o.remove_current m = some r) :
    r.1.cells a = m.cells a := by
  unfold object.remove_current at hr
  split at hr
  · cases hr
    exact fs_shift_left_other _ _ _ _ _ h1
  · cases hr

theorem object_assign_other (o : object) (m : free_store α) (f : Nat → α)
    (source : Option object) (a : Nat) (h : a < m.next) :
    (o.assign m f source).1.cells a = m.cells a := by
  cases source with
  | none => rfl
  | some src =>
    simp only [object.assign]
    rw [fs_copy_items_other _ _ _ _ _ (by omega), allocate_cells_other _ _ _ (by omega)]

/-- A call of a modification member function on an object leaves every other
allocated array as it was. -/
theorem apply_to_other (f : Nat → α) (m : free_store α) (o : object) (op : operation α)
    (r : free_store α × object) (a : Nat) (h1 : a ≠ o.data) (h2 : a < m.next)
    (hr : op.apply_to f m o = some r) : r.1.cells a = m.cells a := by
  cases op with
  | insert entry =>
    cases hr; exact object_insert_other o m f entry a h1 h2
  | attach entry =>
    cases hr; exact object_attach_other o m f entry a h1 h2
  | remove_current => exact object_remove_current_other o m a r h1 hr
  | resize n =>
    cases hr; exact object_resize_other o m f n a h2
  | start => cases hr; rfl
  | advance =>
    simp only [operation.apply_to, Option.map_eq_some'] at hr
    obtain ⟨t, _, e⟩ := hr
    cases e; rfl

theorem object_copy_construct_other (m : free_store α) (f : Nat → α) (src : object) (a : Nat)
    (h : a < m.next) : (object.copy_construct m f src).1.cells a = m.cells a := by
  simp only [object.copy_construct]
  rw [fs_copy_items_other _ _ _ _ _ (by omega), allocate_cells_other _ _ _ (by omega)]

theorem object_copy_construct_same (m : free_store α) (f : Nat → α) (src : object)
    (h : src.data < m.next) :
    same_state ((object.copy_construct m f src).2.view (object.copy_construct m f src).1)
      (sequence.copy_construct f (src.view m)) := by
  refine ⟨?_, rfl, rfl, rfl⟩
  funext k
  simp only [object.view, object.copy_construct, sequence.copy_construct, copy_items_fst]
  rw [fs_copy_items_dst _ _ _ _ (by omega), allocate_cells_other _ _ _ (by omega),
    allocate_cells_new]

theorem copy_construct_items (f : Nat → α) (s : sequence α) :
    (sequence.copy_construct f s).items = s.items := by
  apply items_congr s (sequence.copy_construct f s) rfl
  intro k hk
  simp [sequence.copy_construct, copy_items_fst, hk]

theorem fs_place_same (p : Nat) (m : free_store α) (s : sequence α) (v : α)
    (hd : m.cells p = s.data) :
    ((free_store.shift_right p s.current_index (s.used + 1) m).write p
        s.current_index v).cells p =
      ((shift_right (s.used + 1) s).store (shift_right (s.used + 1) s).current_index v).data := by
  rw [write_cells_same, fs_shift_right_same p _ m s hd, shift_right_current_index]
  rfl

/-- `insert` in the free store computes, on the object's own array and
counters, what the embedding of `insert` computes. -/
theorem object_insert_same (o : object) (m : free_store α) (f : Nat → α) (v : α)
    (h : o.data < m.next) :
    same_state ((o.insert m f v).2.view (o.insert m f v).1) ((o.view m).insert f v) := by
  have hs := object_grown_same o m f h
  have hi : (o.grown m f).2.is_item = (grown (o.view m) f).is_item :=
    same_state_is_item _ _ hs
  obtain ⟨hd, hu, hc, hcap⟩ := hs
  simp only [object.view] at hd hu hc hcap
  rw [object_insert_def, insert_def, hi]
  cases hg : (grown (o.view m) f).is_item
  · simp only [Bool.not_false, if_true]
    refine ⟨?_, ?_, ?_, ?_⟩
    · have := fs_place_same (o.grown m f).2.data (o.grown m f).1
        { grown (o.view m) f with current_index := 0 } v hd
      simp only [object.view, hu]
      exact this
    · simp [object.view, sequence.store, shift_right_used, hu]
    · simp [object.view, sequence.store, shift_right_current_index]
    · simp [object.view, sequence.store, shift_right_capacity, hcap]
  · simp only [Bool.not_true, if_false]
    refine ⟨?_, ?_, ?_, ?_⟩
    · have := fs_place_same (o.grown m f).2.data (o.grown m f).1 (grown (o.view m) f) v hd
      simp only [object.view, hu, hc]
      exact this
    · simp [object.view, sequence.store, shift_right_used, hu]
    · simp [object.view, sequence.store, shift_right_current_index, hc]
    · simp [object.view, sequence.store, shift_right_capacity, hcap]

/-- `attach` in the free store computes what the embedding of `attach`
computes. -/
theorem object_attach_same (o : object) (m : free_store α) (f : Nat → α) (v : α)
    (h : o.data < m.next) :
    same_state ((o.attach m f v).2.view (o.attach m f v).1) ((o.view m).attach f v) := by
  have hs := object_grown_same o m f h
  have hi : (o.grown m f).2.is_item = (grown (o.view m) f).is_item :=
    same_state_is_item _ _ hs
  obtain ⟨hd, hu, hc, hcap⟩ := hs
  simp only [object.view] at hd hu hc hcap
  rw [object_attach_def, attach_def, hi]
  cases hg : (grown (o.view m) f).is_item
  · simp only [Bool.not_false, if_true]
    refine ⟨?_, ?_, ?_, ?_⟩
    · simp only [object.view, sequence.store]
      rw [write_cells_same, hd, hc]
    · simp [object.view, sequence.store, hu]
    · simp [object.view, sequence.store, hc]
    · simp [object.view, sequence.store, hcap]
  · simp only [Bool.not_true, if_false]
    refine ⟨?_, ?_, ?_, ?_⟩
    · have := fs_place_same (o.grown m f).2.data (o.grown m f).1
        { grown (o.view m) f with
          current_index := (grown (o.view m) f).current_index + 1 } v hd
      simp only [object.view, hu, hc]
      exact this
    · simp [object.view, sequence.store, shift_right_used, hu]
    · simp [object.view, sequence.store, shift_right_current_index, hc]
    · simp [object.view, sequence.store, shift_right_capacity, hcap]

/-- `remove_current` in the free store fails where the embedding of
`remove_current` fails and otherwise computes what it computes. -/
theorem object_remove_current_same (o : object) (m : free_store α) :
    match o.remove_current m, (o.view m).remove_current with
    | some r, some t => same_state (r.2.view r.1) t
    | none, none => True
    | _, _ => False := by
  by_cases hc : o.current_index = o.used
  · have h1 : o.is_item = false := by simp [object.is_item, hc]
    rw [remove_current_none (o.view m) hc]
    simp [object.remove_current, h1]
  · have h1 : o.is_item = true := by simp [object.is_item, hc]
    rw [remove_current_some (o.view m) hc]
    simp only [object.remove_current, h1, if_true]
    refine ⟨?_, ?_, ?_, ?_⟩
    · exact fs_shift_left_same o.data _ m (o.view m) rfl
    · simp [object.view, shift_left_used]
    · simp [object.view, shift_left_current_index]
    · simp [object.view, shift_left_capacity]

theorem object_grown_next (o : object) (m : free_store α) (f : Nat → α) :
    m.next ≤ (o.grown m f).1.next := by
  unfold object.grown; split
  · simp only [object.resize, fs_copy_items_next, free_store.allocate]; omega
  · exact Nat.le_refl _

theorem object_grown_data_lt (o : object) (m : free_store α) (f : Nat → α)
    (h : o.data < m.next) : (o.grown m f).2.data < (o.grown m f).1.next := by
  unfold object.grown; split
  · simp only [object.resize, fs_copy_items_next, free_store.allocate]; omega
  · exact h

/-- A change made to an object leaves every other allocated array as it was,
and the object's array afterwards is still another one. -/
theorem apply_keeps_apart (f : Nat → α) (w r : free_store α × object) (c : mutation α)
    (a : Nat) (h1 : a ≠ w.2.data) (h2 : a < w.1.next) (hr : c.apply f w = some r) :
    r.1.cells a = w.1.cells a ∧ a ≠ r.2.data ∧ a < r.1.next := by
  cases c with
  | assign source =>
    cases hr
    refine ⟨object_assign_other w.2 w.1 f source a h2, ?_, ?_⟩
    · cases source with
      | none => exact h1
      | some src => simp only [object.assign]; omega
    · cases source with
      | none => exact h2
      | some src =>
        simp only [object.assign, fs_copy_items_next, free_store.allocate]; omega
  | call op =>
    have hcells := apply_to_other f w.1 w.2 op r a h1 h2 hr
    refine ⟨hcells, ?_⟩
    have hg := object_grown_data w.2 w.1 f
    have hn := object_grown_next w.2 w.1 f
    cases op with
    | insert entry =>
      cases hr
      rw [object_insert_def]
      split <;>
        simp only [free_store.write, fs_shift_right_next] <;>
        exact ⟨by rcases hg with e | e <;> rw [e] <;> omega, by omega⟩
    | attach entry =>
      cases hr
      rw [object_attach_def]
      split <;>
        simp only [free_store.write, fs_shift_right_next] <;>
        exact ⟨by rcases hg with e | e <;> rw [e] <;> omega, by omega⟩
    | remove_current =>
      simp only [mutation.apply, operation.apply_to, object.remove_current] at hr
      split at hr
      · cases hr
        simp only [fs_shift_left_next]
        exact ⟨h1, h2⟩
      · cases hr
    | resize n =>
      cases hr
      simp only [object.resize, fs_copy_items_next, free_store.allocate]
      exact ⟨by omega, by omega⟩
    | start => cases hr; exact ⟨h1, h2⟩
    | advance =>
      simp only [mutation.apply, operation.apply_to, Option.map_eq_some'] at hr
      obtain ⟨t, ht, e⟩ := hr
      cases e
      simp only [object.advance] at ht
      split at ht
      · cases ht; exact ⟨h1, h2⟩
      · cases ht

theorem mutate_keeps_apart (f : Nat → α) (cs : List (mutation α))
    (w r : free_store α × object) (a : Nat) (h1 : a ≠ w.2.data) (h2 : a < w.1.next)
    (hr : mutate f cs w = some r) : r.1.cells a = w.1.cells a := by
  induction cs generalizing w with
  | nil =>
    simp only [mutate] at hr
    cases hr; rfl
  | cons c cs ih =>
    simp only [mutate, Option.bind_eq_some] at hr
    obtain ⟨w1, hw1, hrest⟩ := hr
    obtain ⟨e1, e2, e3⟩ := apply_keeps_apart f w w1 c a h1 h2 hw1
    rw [ih w1 e2 e3 hrest, e1]

theorem object_construct_same (m : free_store α) (f : Nat → α) (n : Nat) :
    same_state ((object.construct m f n).2.view (object.construct m f n).1)
      (sequence.construct f n) := by
  refine ⟨?_, rfl, rfl, rfl⟩
  simp only [object.view, object.construct, sequence.construct, allocate_cells_new]

theorem object_assign_same (o src : object) (m : free_store α) (f : Nat → α)
    (h : src.data < m.next) :
    same_state ((o.assign m f (some src)).2.view (o.assign m f (some src)).1)
      ((o.view m).assign f (.other (src.view m))) := by
  refine ⟨?_, rfl, rfl, rfl⟩
  funext k
  simp only [object.view, object.assign, sequence.assign, copy_items_fst]
  rw [fs_copy_items_dst _ _ _ _ (by omega), allocate_cells_other _ _ _ (by omega),
    allocate_cells_new]

/-! ## Copy construction -/

/-- C13: the copy constructed from a state satisfying the invariant has the
same `used`, `current_index`, `capacity` and items and satisfies the invariant.
In the free store, where the original `o` and its copy are two objects with an
array each, the copy shows that same state, its array is a new one, and
neither its construction nor any series of calls of modification member
functions on it or assignments to it changes the state of the original. -/
theorem copy_construction_is_deep (s : sequence α) (m : free_store α) (o : object)
    (f g : Nat → α) (cs : List (mutation α)) (hs : s.Inv) (h : o.data < m.next) :
    ((sequence.copy_construct f s).used = s.used ∧
        (sequence.copy_construct f s).current_index = s.current_index ∧
        (sequence.copy_construct f s).capacity = s.capacity ∧
        (sequence.copy_construct f s).items = s.items ∧
        (sequence.copy_construct f s).Inv) ∧
      same_state ((object.copy_construct m f o).2.view (object.copy_construct m f o).1)
        (sequence.copy_construct f (o.view m)) ∧
      (object.copy_construct m f o).2.data ≠ o.data ∧
      o.view (object.copy_construct m f o).1 = o.view m ∧
      (∀ r, mutate g cs (object.copy_construct m f o) = some r →
        o.view r.1 = o.view m ∧ (o.view r.1).items = (o.view m).items) := by
  have hnew : (object.copy_construct m f o).2.data = m.next := rfl
  have hnext : (object.copy_construct m f o).1.next = m.next + 1 := by
    simp only [object.copy_construct, fs_copy_items_next, free_store.allocate]
  have hkept := object_copy_construct_other m f o o.data h
  refine ⟨⟨rfl, rfl, rfl, copy_construct_items f s, copy_construct_inv f s hs⟩,
    object_copy_construct_same m f o h, by rw [hnew]; omega, ?_, ?_⟩
  · simp only [object.view, hkept]
  · intro r hr
    have hcells := mutate_keeps_apart g cs (object.copy_construct m f o) r o.data
      (by rw [hnew]; omega) (by rw [hnext]; omega) hr
    have hv : o.view r.1 = o.view m := by
      simp only [object.view, hcells, hkept]
    exact ⟨hv, by rw [hv]⟩

theorem copy_construction_is_deep_witness :
    seq57.Inv ∧ world57.2.data < world57.1.next ∧
      (((sequence.copy_construct junk2 seq57).used = seq57.used ∧
          (sequence.copy_construct junk2 seq57).current_index = seq57.current_index ∧
          (sequence.copy_construct junk2 seq57).capacity = seq57.capacity ∧
          (sequence.copy_construct junk2 seq57).items = seq57.items ∧
          (sequence.copy_construct junk2 seq57).Inv) ∧
        same_state
          ((object.copy_construct world57.1 junk2 world57.2).2.view
            (object.copy_construct world57.1 junk2 world57.2).1)
          (sequence.copy_construct junk2 (world57.2.view world57.1)) ∧
        (object.copy_construct world57.1 junk2 world57.2).2.data ≠ world57.2.data ∧
        world57.2.view (object.copy_construct world57.1 junk2 world57.2).1 =
          world57.2.view world57.1 ∧
        (∀ r, mutate junk [.call (.insert 3), .call .remove_current, .call (.attach 9)]
            (object.copy_construct world57.1 junk2 world57.2) = some r →
          world57.2.view r.1 = world57.2.view world57.1 ∧
            (world57.2.view r.1).items = (world57.2.view world57.1).items)) ∧
      (world57.2.view world57.1).items = [5, 7] ∧
      (mutate junk [.call (.insert 3), .call .remove_current, .call (.attach 9)]
          copied57).map (fun r => ((r.2.view r.1).items, (world57.2.view r.1).items)) =
        some ([5, 9, 7], [5, 7]) :=
  ⟨by decide, by decide,
    copy_construction_is_deep seq57 world57.1 world57.2 junk2 junk
      [.call (.insert 3), .call .remove_current, .call (.attach 9)] (by decide) (by decide),
    by decide, by decide⟩

end CS3358_SP2023
